import Mathlib

/-!
# sqlToJPA: a shallow embedding of `sql_parser_jpa_generator.cpp`

Strings of the program (`std::string`) are modelled by `String`, and scanned as
lists of characters.  Character classification follows the "C" locale of the
program (no `setlocale` call): only ASCII characters are letters, digits or
white space, and `toupper` / `tolower` change ASCII letters only.

The `std::regex` patterns of the program are ECMAScript patterns run by a
backtracking matcher; they are embedded as values of `Re` and run by `Re.run`,
which explores the alternatives in the priority order of ECMAScript (greedy
quantifiers try one more iteration first, lazy ones try the rest first).
-/

namespace SqlToJpa

/-! ## Characters in the "C" locale -/

/-- The `isspace` classification: space, `\t`, `\n`, `\v`, `\f`, `\r`. -/
def isspace (c : Char) : Bool :=
  c.toNat == 32 || (9 ≤ c.toNat && c.toNat ≤ 13)

/-- The `isalnum` classification: ASCII letters and digits. -/
def isalnum (c : Char) : Bool :=
  (48 ≤ c.toNat && c.toNat ≤ 57) || (65 ≤ c.toNat && c.toNat ≤ 90) ||
    (97 ≤ c.toNat && c.toNat ≤ 122)

/-- The `toupper` function of the "C" locale. -/
def toupper (c : Char) : Char :=
  if 97 ≤ c.toNat && c.toNat ≤ 122 then Char.ofNat (c.toNat - 32) else c

/-- The `tolower` function of the "C" locale. -/
def tolower (c : Char) : Char :=
  if 65 ≤ c.toNat && c.toNat ≤ 90 then Char.ofNat (c.toNat + 32) else c

/-- The character U+0060, which quotes identifiers in the SQL dialect. -/
def backquote : Char := Char.ofNat 96

/-- The character U+0027, the single quote. -/
def quote1 : Char := Char.ofNat 39

/-! ## Regular expressions (the fragment of ECMAScript the program uses) -/

/-- One item of a bracket expression. -/
inductive ClassItem where
  /-- A literal character. -/
  | chr (c : Char)
  /-- The class `\w`: alphanumeric or underscore. -/
  | word
  /-- The class `\s`. -/
  | space
  /-- The class `\S`. -/
  | notSpace
  deriving Repr, DecidableEq

/-- Abstract syntax of the patterns. -/
inductive Re where
  /-- A literal character. -/
  | chr (c : Char)
  /-- The wildcard `.`: any character but a line terminator. -/
  | any
  /-- A bracket expression `[...]`, or `[^...]` when `negated`. -/
  | set (negated : Bool) (items : List ClassItem)
  /-- The assertion `$`. -/
  | eol
  /-- The empty pattern. -/
  | empty
  /-- Concatenation. -/
  | seq (a b : Re)
  /-- Alternation `a|b`, `a` tried first. -/
  | alt (a b : Re)
  /-- Capture group number `i`. -/
  | group (i : Nat) (r : Re)
  /-- Repetition `r*` (greedy) or `r*?` (lazy). -/
  | star (greedy : Bool) (r : Re)
  deriving Repr

/-- Syntax options and the reading of `$`. -/
structure Flags where
  /-- The option `icase`. -/
  icase : Bool
  /-- Whether `$` also matches before a line terminator. -/
  multiline : Bool
  deriving Repr, DecidableEq

/-- Default options: case-sensitive, `$` at the end of input only. -/
def Flags.default : Flags := ⟨false, false⟩

/-- The option `std::regex::icase`. -/
def Flags.nocase : Flags := ⟨true, false⟩

/-- Comparison of an input character with a pattern character. -/
def eqChar (f : Flags) (x c : Char) : Bool :=
  if f.icase then tolower x == tolower c else x == c

/-- Whether the input character `x` is matched by a bracket item. -/
def ClassItem.test (f : Flags) (x : Char) : ClassItem → Bool
  | .chr c => eqChar f x c
  | .word => isalnum x || x == '_'
  | .space => isspace x
  | .notSpace => !isspace x

/-- Line terminators, which `.` does not match. -/
def isLineTerminator (c : Char) : Bool := c == '\n' || c == '\r'

/-- The captures made so far, most recent first. -/
abbrev Caps := List (Nat × List Char)

/-- Result of a run: the input left after the match, and the captures. -/
abbrev Out := Option (List Char × Caps)

/-- A continuation: what remains to be matched after a sub-pattern. -/
abbrev Cont := List Char → Caps → Out

/-- Iterations of a starred pattern.  An iteration has to consume input, so at
most as many iterations as remaining characters take place: the counter starts
at the length of the remaining input and never cuts a match short. -/
def starLoop (greedy : Bool) (step : Cont → Cont) (k : Cont) : Nat → Cont
  | 0 => k
  | n + 1 => fun s caps =>
    if greedy then
      match step (fun s1 caps1 =>
          if s1.length < s.length then starLoop greedy step k n s1 caps1 else none) s caps with
      | some r => some r
      | none => k s caps
    else
      match k s caps with
      | some r => some r
      | none => step (fun s1 caps1 =>
          if s1.length < s.length then starLoop greedy step k n s1 caps1 else none) s caps

/-- Backtracking matcher in continuation-passing style: `r.run f k s caps` matches
`r` at the head of `s` and then runs `k` on the rest; the first success in
priority order is returned. -/
def Re.run (f : Flags) : Re → Cont → Cont
  | .chr c, k => fun s caps =>
    match s with
    | x :: xs => if eqChar f x c then k xs caps else none
    | [] => none
  | .any, k => fun s caps =>
    match s with
    | x :: xs => if isLineTerminator x then none else k xs caps
    | [] => none
  | .set negated items, k => fun s caps =>
    match s with
    | x :: xs => if (items.any (ClassItem.test f x)) != negated then k xs caps else none
    | [] => none
  | .eol, k => fun s caps =>
    match s with
    | [] => k s caps
    | x :: _ => if f.multiline && isLineTerminator x then k s caps else none
  | .empty, k => k
  | .seq a b, k => a.run f (b.run f k)
  | .alt a b, k => fun s caps =>
    match a.run f k s caps with
    | some r => some r
    | none => b.run f k s caps
  | .group i r, k => fun s caps =>
    r.run f (fun s1 caps1 => k s1 ((i, s.take (s.length - s1.length)) :: caps1)) s caps
  | .star greedy r, k => fun s caps => starLoop greedy (r.run f) k s.length s caps

/-- The pattern `r+` (greedy) or `r+?` (lazy). -/
def Re.plus (greedy : Bool) (r : Re) : Re := .seq r (.star greedy r)

/-- The pattern `r?` (greedy). -/
def Re.opt (r : Re) : Re := .alt r .empty

/-- Concatenation of a list of patterns. -/
def Re.cat : List Re → Re
  | [] => .empty
  | [r] => r
  | r :: rs => .seq r (Re.cat rs)

/-- Alternation of a non-empty list of patterns, in order. -/
def Re.alts : List Re → Re
  | [] => .empty
  | [r] => r
  | r :: rs => .alt r (Re.alts rs)

/-- A literal word. -/
def Re.lit (w : String) : Re := Re.cat (w.toList.map Re.chr)

/-- The atom `\s`. -/
def Re.ws : Re := .set false [.space]

/-- A successful match. -/
structure Match where
  /-- The input before the match. -/
  before : List Char
  /-- The matched text, `match[0]`. -/
  matched : List Char
  /-- The input after the match. -/
  after : List Char
  /-- The captures. -/
  caps : Caps
  deriving Repr, DecidableEq

/-- The text of the sub-match `i` as `match.str(i)`: empty when the group took no part. -/
def Match.str (m : Match) (i : Nat) : String :=
  match m.caps.lookup i with
  | some cs => String.mk cs
  | none => ""

/-- The function `std::regex_match`: the whole input has to be matched. -/
def regex_match (f : Flags) (r : Re) (s : List Char) : Option Match :=
  match r.run f (fun s1 caps => if s1.isEmpty then some (s1, caps) else none) s [] with
  | some (_, caps) => some ⟨[], s, [], caps⟩
  | none => none

/-- Search from the left: the first start position at which the pattern matches. -/
def searchFrom (f : Flags) (r : Re) (skipped : List Char) : List Char → Option Match
  | [] =>
    match r.run f (fun s1 caps => some (s1, caps)) [] [] with
    | some (rest, caps) => some ⟨skipped.reverse, [], rest, caps⟩
    | none => none
  | c :: cs =>
    match r.run f (fun s1 caps => some (s1, caps)) (c :: cs) [] with
    | some (rest, caps) =>
      some ⟨skipped.reverse, (c :: cs).take ((c :: cs).length - rest.length), rest, caps⟩
    | none => searchFrom f r (c :: skipped) cs

/-- The function `std::regex_search`. -/
def regex_search (f : Flags) (r : Re) (s : List Char) : Option Match :=
  searchFrom f r [] s

/-- The matches enumerated by a `std::sregex_iterator`: each search resumes where
the previous match ended; `before` is relative to that point.  No pattern of the
program matches the empty string, and the enumeration stops at an empty match.
The counter exceeds the number of characters left, so it never ends the
enumeration early. -/
def regexIter (f : Flags) (r : Re) : Nat → List Char → List Match
  | 0, _ => []
  | n + 1, s =>
    match regex_search f r s with
    | none => []
    | some m => if m.matched.isEmpty then [m] else m :: regexIter f r n m.after

/-- All matches of `r` in `s`, from left to right. -/
def regex_matches (f : Flags) (r : Re) (s : List Char) : List Match :=
  regexIter f r (s.length + 1) s

/-- The input after the last match of a list of matches of `s`. -/
def lastAfter (s : List Char) : List Match → List Char
  | [] => s
  | [m] => m.after
  | _ :: ms => lastAfter s ms

/-- The function `std::regex_replace` with a format string without `$`. -/
def regex_replace (f : Flags) (r : Re) (fmt : List Char) (s : List Char) : List Char :=
  let ms := regex_matches f r s
  (ms.map fun m => m.before ++ fmt).flatten ++ lastAfter s ms

/-- What a pattern can match: `Matches f r s caps s1 caps1` says that `r` matches a
beginning of `s`, leaves `s1`, and turns the captures `caps` into `caps1`. -/
inductive Matches (f : Flags) : Re → List Char → Caps → List Char → Caps → Prop where
  | chr {c x : Char} {xs : List Char} {caps : Caps} :
    eqChar f x c = true → Matches f (.chr c) (x :: xs) caps xs caps
  | any {x : Char} {xs : List Char} {caps : Caps} :
    isLineTerminator x = false → Matches f .any (x :: xs) caps xs caps
  | set {negated : Bool} {items : List ClassItem} {x : Char} {xs : List Char} {caps : Caps} :
    ((items.any (ClassItem.test f x)) != negated) = true →
    Matches f (.set negated items) (x :: xs) caps xs caps
  | eolEnd {caps : Caps} : Matches f .eol [] caps [] caps
  | eolLine {x : Char} {xs : List Char} {caps : Caps} :
    (f.multiline && isLineTerminator x) = true → Matches f .eol (x :: xs) caps (x :: xs) caps
  | empty {s : List Char} {caps : Caps} : Matches f .empty s caps s caps
  | seq {a b : Re} {s s1 s2 : List Char} {c c1 c2 : Caps} :
    Matches f a s c s1 c1 → Matches f b s1 c1 s2 c2 → Matches f (.seq a b) s c s2 c2
  | altL {a b : Re} {s s1 : List Char} {c c1 : Caps} :
    Matches f a s c s1 c1 → Matches f (.alt a b) s c s1 c1
  | altR {a b : Re} {s s1 : List Char} {c c1 : Caps} :
    Matches f b s c s1 c1 → Matches f (.alt a b) s c s1 c1
  | group {i : Nat} {r : Re} {s s1 : List Char} {c c1 : Caps} :
    Matches f r s c s1 c1 →
    Matches f (.group i r) s c s1 ((i, s.take (s.length - s1.length)) :: c1)
  | starDone {g : Bool} {r : Re} {s : List Char} {c : Caps} : Matches f (.star g r) s c s c
  | starMore {g : Bool} {r : Re} {s s1 s2 : List Char} {c c1 c2 : Caps} :
    Matches f r s c s1 c1 → s1.length < s.length → Matches f (.star g r) s1 c1 s2 c2 →
    Matches f (.star g r) s c s2 c2

/-- The capture groups of a pattern. -/
def Re.groups : Re → List Nat
  | .chr _ => []
  | .any => []
  | .set _ _ => []
  | .eol => []
  | .empty => []
  | .seq a b => a.groups ++ b.groups
  | .alt a b => a.groups ++ b.groups
  | .group i r => i :: r.groups
  | .star _ r => r.groups

/-! ## Data model -/

/-- The structure `ColumnInfo`. -/
structure ColumnInfo where
  name : String := ""
  field_name : String := ""
  sql_type : String := ""
  java_type : String := ""
  nullable : Bool := true
  primary_key : Bool := false
  auto_increment : Bool := false
  default_value : String := ""
  deriving Repr, DecidableEq

/-- The structure `ForeignKeyInfo`.  The pointer `referenced_table_info` into the
vector of tables is modelled by the index of the table it points to; `none` is
`nullptr`. -/
structure ForeignKeyInfo where
  column_name : String := ""
  referenced_table : String := ""
  referenced_column : String := ""
  referenced_table_info : Option Nat := none
  deriving Repr, DecidableEq

/-- The structure `TableInfo`. -/
structure TableInfo where
  name : String := ""
  class_name : String := ""
  columns : List ColumnInfo := []
  primary_keys : List String := []
  foreign_keys : List ForeignKeyInfo := []
  deriving Repr, DecidableEq

/-- The table `SQL_TO_JAVA_TYPE_MAP`, in the order of the source. -/
def SQL_TO_JAVA_TYPE_MAP : List (String × String) :=
  [("VARCHAR", "String"), ("CHAR", "String"), ("TEXT", "String"), ("LONGTEXT", "String"),
   ("MEDIUMTEXT", "String"), ("TINYTEXT", "String"), ("CLOB", "String"), ("NVARCHAR", "String"),
   ("NCHAR", "String"), ("NTEXT", "String"),
   ("INT", "Integer"), ("INTEGER", "Integer"), ("SMALLINT", "Short"), ("TINYINT", "Byte"),
   ("BIGINT", "Long"), ("MEDIUMINT", "Integer"),
   ("DECIMAL", "BigDecimal"), ("NUMERIC", "BigDecimal"), ("MONEY", "BigDecimal"),
   ("SMALLMONEY", "BigDecimal"), ("FLOAT", "Float"), ("REAL", "Float"), ("DOUBLE", "Double"),
   ("DATE", "LocalDate"), ("TIME", "LocalTime"), ("TIMESTAMP", "LocalDateTime"),
   ("DATETIME", "LocalDateTime"), ("DATETIME2", "LocalDateTime"),
   ("SMALLDATETIME", "LocalDateTime"),
   ("BOOLEAN", "Boolean"), ("BOOL", "Boolean"), ("BIT", "Boolean"),
   ("BLOB", "byte[]"), ("LONGBLOB", "byte[]"), ("MEDIUMBLOB", "byte[]"), ("TINYBLOB", "byte[]"),
   ("BINARY", "byte[]"), ("VARBINARY", "byte[]"), ("IMAGE", "byte[]"),
   ("JSON", "String"), ("JSONB", "String"), ("XML", "String"), ("UUID", "UUID")]

/-- The table `IMPORT_MAP`. -/
def IMPORT_MAP : List (String × String) :=
  [("BigDecimal", "java.math.BigDecimal"), ("BigInteger", "java.math.BigInteger"),
   ("LocalDate", "java.time.LocalDate"), ("LocalTime", "java.time.LocalTime"),
   ("LocalDateTime", "java.time.LocalDateTime"), ("UUID", "java.util.UUID"),
   ("Objects", "java.util.Objects")]

/-! ## String helpers -/

/-- The characters stripped by `trim`: the set `" \t\n\r"`. -/
def isTrimChar (c : Char) : Bool := c == ' ' || c == '\t' || c == '\n' || c == '\r'

/-- The function `trim` on character lists: the text from the first to the last
character outside `" \t\n\r"`, empty when there is none. -/
def trimChars (s : List Char) : List Char :=
  ((s.dropWhile isTrimChar).reverse.dropWhile isTrimChar).reverse

/-- The function `trim`. -/
def trim (str : String) : String := String.mk (trimChars str.toList)

/-- Upper-casing of a whole string, `std::transform(..., ::toupper)`. -/
def toUpperStr (s : String) : String := String.mk (s.toList.map toupper)

/-- The function `capitalizeFirst`. -/
def capitalizeFirst (input : String) : String :=
  match input.toList with
  | [] => input
  | c :: cs => String.mk (toupper c :: cs)

/-- The loop of `toCamelCase`; the flag is `capitalize_next`. -/
def camelLoop : List Char → Bool → List Char
  | [], _ => []
  | c :: cs, capitalize_next =>
    if c == '_' || c == '-' then camelLoop cs true
    else if capitalize_next then toupper c :: camelLoop cs false
    else tolower c :: camelLoop cs false

/-- The function `toCamelCase`. -/
def toCamelCase (input : String) (capitalize_first : Bool) : String :=
  String.mk (camelLoop input.toList capitalize_first)

/-- Whether `needle` occurs in `hay`: `hay.find(needle) != npos`. -/
def containsSub (needle : List Char) : List Char → Bool
  | [] => needle.isEmpty
  | c :: cs => needle.isPrefixOf (c :: cs) || containsSub needle cs

/-- Removal of every backquote: `regex_replace(s, regex("\x60"), "")`. -/
def stripBackquotes (s : String) : String :=
  String.mk (regex_replace Flags.default (.chr backquote) [] s.toList)

/-! ## Normalizer -/

/-- The pattern `--.*$`. -/
def line_comment_pattern : Re :=
  Re.cat [Re.lit "--", .star true .any, .eol]

/-- The pattern `/\*[\s\S]*?\*/`. -/
def block_comment_pattern : Re :=
  Re.cat [Re.lit "/*", .star false (.set false [.space, .notSpace]), Re.lit "*/"]

/-- The pattern `\s+`. -/
def whitespace_pattern : Re := Re.plus true Re.ws

/-- The first two steps of `cleanSQL`: the replacements of `--.*$` and of block
comments by the empty string.  The source passes `std::regex_constants::multiline`
as the match flags of the first `regex_replace`, not as an option of the pattern:
the pattern `--.*$` is built with the default options, so `$` matches at the end
of the input only and `.` stops at a line terminator. -/
def removeComments (sql_content : List Char) : List Char :=
  let s1 := regex_replace Flags.default line_comment_pattern [] sql_content
  regex_replace Flags.default block_comment_pattern [] s1

/-- The function `cleanSQL`: comments are removed, then white space is normalised. -/
def cleanSQL (sql_content : String) : String :=
  String.mk (regex_replace Flags.default whitespace_pattern [' ']
    (removeComments sql_content.toList))

/-! ## Column splitter and clause classifier -/

/-- The scan of `splitByCommaIgnoringParentheses`: `current` is the clause being
read and `parentheses_count` the nesting counter (an `int` in the source). -/
def splitScan : List Char → List Char → Int → List String
  | [], current, _ => if current.isEmpty then [] else [String.mk (trimChars current)]
  | c :: cs, current, parentheses_count =>
    if c == '(' then splitScan cs (current ++ [c]) (parentheses_count + 1)
    else if c == ')' then splitScan cs (current ++ [c]) (parentheses_count - 1)
    else if c == ',' && parentheses_count == 0 then
      String.mk (trimChars current) :: splitScan cs [] parentheses_count
    else splitScan cs (current ++ [c]) parentheses_count

/-- The function `splitByCommaIgnoringParentheses`. -/
def splitByCommaIgnoringParentheses (input : String) : List String :=
  splitScan input.toList [] 0

/-- The prefixes tested by `isConstraintLine`, in the order of the source. -/
def constraintPrefixes : List String :=
  ["PRIMARY KEY", "FOREIGN KEY", "KEY", "INDEX", "UNIQUE", "CONSTRAINT", "CHECK"]

/-- The function `isConstraintLine`: `upper_line.find(p) == 0` for one of the prefixes. -/
def isConstraintLine (line : String) : Bool :=
  constraintPrefixes.any fun p => p.toList.isPrefixOf (toUpperStr line).toList

/-! ## Type mapper -/

/-- The pattern `\s+UNSIGNED`. -/
def unsigned_pattern : Re := Re.cat [Re.plus true Re.ws, Re.lit "UNSIGNED"]

/-- The function `extractBaseType`. -/
def extractBaseType (sql_type : String) : String :=
  let result := sql_type.toList.takeWhile (fun c => c != '(')
  String.mk (trimChars (regex_replace Flags.default unsigned_pattern [] result))

/-- The function `adjustForUnsigned`. -/
def adjustForUnsigned (java_type : String) : String :=
  if java_type = "Byte" then "Short"
  else if java_type = "Short" then "Integer"
  else if java_type = "Integer" then "Long"
  else if java_type = "Long" then "BigInteger"
  else java_type

/-- The function `convertSQLTypeToJava`. -/
def convertSQLTypeToJava (sql_type : String) : String :=
  match SQL_TO_JAVA_TYPE_MAP.lookup sql_type with
  | some t => t
  | none => "String"

/-- The mapped type of an upper-cased type token: lines 226 to 231 of `parseColumn`. -/
def javaTypeOfToken (sql_type : String) : String :=
  let java_type := convertSQLTypeToJava (extractBaseType sql_type)
  if containsSub "UNSIGNED".toList sql_type.toList then adjustForUnsigned java_type
  else java_type

/-! ## Column parser -/

/-- The pattern of `parseColumn`:
`(?:Q([^Q]+)Q|([\w_]+))\s+([\w()\s,]+?)\s*(?:(NOT\s+NULL|NULL))?\s*`
`(?:(AUTO_INCREMENT|IDENTITY))?\s*(?:(PRIMARY\s+KEY))?\s*(?:DEFAULT\s+([^,\s]+))?\s*`
`(?:COMMENT\s+['"]([^'"]*?)['"])?`, where `Q` stands for the backquote. -/
def column_pattern : Re :=
  Re.cat [
    .alt (Re.cat [.chr backquote, .group 1 (Re.plus true (.set true [.chr backquote])),
        .chr backquote])
      (.group 2 (Re.plus true (.set false [.word, .chr '_']))),
    Re.plus true Re.ws,
    .group 3 (Re.plus false (.set false [.word, .chr '(', .chr ')', .space, .chr ','])),
    .star true Re.ws,
    Re.opt (.group 4 (.alt (Re.cat [Re.lit "NOT", Re.plus true Re.ws, Re.lit "NULL"])
      (Re.lit "NULL"))),
    .star true Re.ws,
    Re.opt (.group 5 (.alt (Re.lit "AUTO_INCREMENT") (Re.lit "IDENTITY"))),
    .star true Re.ws,
    Re.opt (.group 6 (Re.cat [Re.lit "PRIMARY", Re.plus true Re.ws, Re.lit "KEY"])),
    .star true Re.ws,
    Re.opt (Re.cat [Re.lit "DEFAULT", Re.plus true Re.ws,
      .group 7 (Re.plus true (.set true [.chr ',', .space]))]),
    .star true Re.ws,
    Re.opt (Re.cat [Re.lit "COMMENT", Re.plus true Re.ws,
      .set false [.chr quote1, .chr '"'],
      .group 8 (.star false (.set true [.chr quote1, .chr '"'])),
      .set false [.chr quote1, .chr '"']])]

/-- The column built by `parseColumn` from a successful match. -/
def columnOfMatch (m : Match) : ColumnInfo :=
  let name := if (m.str 1).isEmpty then m.str 2 else m.str 1
  let sql_type := toUpperStr (m.str 3)
  { name := name
    field_name := toCamelCase name false
    sql_type := extractBaseType sql_type
    java_type := javaTypeOfToken sql_type
    nullable := (m.str 4).isEmpty || m.str 4 == "NULL"
    auto_increment := !(m.str 5).isEmpty
    primary_key := !(m.str 6).isEmpty
    default_value := m.str 7 }

/-- The function `parseColumn`: a default-constructed column (empty name) when the
clause does not match the pattern. -/
def parseColumn (column_definition : String) : ColumnInfo :=
  match regex_match Flags.nocase column_pattern column_definition.toList with
  | some m => columnOfMatch m
  | none => {}

/-- The two `erase` calls of `parseColumns`: spaces removed at both ends. -/
def trimSpaces (line : String) : String :=
  String.mk (((line.toList.dropWhile (· == ' ')).reverse.dropWhile (· == ' ')).reverse)

/-- The body of the loop of `parseColumns` for one clause: the column it appends, if any. -/
def columnOfClause (line : String) : Option ColumnInfo :=
  let trimmed := trimSpaces line
  if trimmed.isEmpty || isConstraintLine trimmed then none
  else
    let column := parseColumn trimmed
    if !column.name.isEmpty then some column else none

/-- The function `parseColumns`. -/
def parseColumns (table_definition : String) : List ColumnInfo :=
  (splitByCommaIgnoringParentheses table_definition).filterMap columnOfClause

/-! ## Constraint extractor -/

/-- The pattern `PRIMARY\s+KEY\s*\(([^)]+)\)`. -/
def pk_pattern : Re :=
  Re.cat [Re.lit "PRIMARY", Re.plus true Re.ws, Re.lit "KEY", .star true Re.ws, .chr '(',
    .group 1 (Re.plus true (.set true [.chr ')'])), .chr ')']

/-- The tokens read by `while (std::getline(ss, column, sep))`; `cur` is the token
being read.  A final empty token is not produced. -/
def getlineAll (sep : Char) : List Char → List Char → List (List Char)
  | [], cur => if cur.isEmpty then [] else [cur]
  | c :: cs, cur =>
    if c == sep then cur :: getlineAll sep cs [] else getlineAll sep cs (cur ++ [c])

/-- The function `findPrimaryKeys`. -/
def findPrimaryKeys (table_definition : String) : List String :=
  match regex_search Flags.nocase pk_pattern table_definition.toList with
  | some m =>
    (getlineAll ',' (m.str 1).toList []).map fun column =>
      stripBackquotes (String.mk (trimChars column))
  | none => []

/-- The pattern
`FOREIGN\s+KEY\s*\(([^)]+)\)\s*REFERENCES\s+(?:Q([^Q]+)Q|([\w_]+))\s*\(([^)]+)\)`,
where `Q` stands for the backquote. -/
def fk_pattern : Re :=
  Re.cat [Re.lit "FOREIGN", Re.plus true Re.ws, Re.lit "KEY", .star true Re.ws, .chr '(',
    .group 1 (Re.plus true (.set true [.chr ')'])), .chr ')', .star true Re.ws,
    Re.lit "REFERENCES", Re.plus true Re.ws,
    .alt (Re.cat [.chr backquote, .group 2 (Re.plus true (.set true [.chr backquote])),
        .chr backquote])
      (.group 3 (Re.plus true (.set false [.word, .chr '_']))),
    .star true Re.ws, .chr '(',
    .group 4 (Re.plus true (.set true [.chr ')'])), .chr ')']

/-- The foreign key built by `findForeignKeys` from one match. -/
def foreignKeyOfMatch (m : Match) : ForeignKeyInfo :=
  { column_name := stripBackquotes (m.str 1)
    referenced_table := if (m.str 2).isEmpty then m.str 3 else m.str 2
    referenced_column := stripBackquotes (m.str 4) }

/-- The function `findForeignKeys`. -/
def findForeignKeys (table_definition : String) : List ForeignKeyInfo :=
  (regex_matches Flags.nocase fk_pattern table_definition.toList).map foreignKeyOfMatch

/-! ## Table extractor -/

/-- The pattern of `parseSQL`:
`CREATE\s+TABLE\s+(?:IF\s+NOT\s+EXISTS\s+)?(?:Q([^Q]+)Q|([\w_]+))\s*\((.*?)\)\s*`
`(?:ENGINE|DEFAULT|COMMENT|;|$)`, where `Q` stands for the backquote. -/
def create_table_pattern : Re :=
  Re.cat [Re.lit "CREATE", Re.plus true Re.ws, Re.lit "TABLE", Re.plus true Re.ws,
    Re.opt (Re.cat [Re.lit "IF", Re.plus true Re.ws, Re.lit "NOT", Re.plus true Re.ws,
      Re.lit "EXISTS", Re.plus true Re.ws]),
    .alt (Re.cat [.chr backquote, .group 1 (Re.plus true (.set true [.chr backquote])),
        .chr backquote])
      (.group 2 (Re.plus true (.set false [.word, .chr '_']))),
    .star true Re.ws, .chr '(', .group 3 (.star false .any), .chr ')', .star true Re.ws,
    Re.alts [Re.lit "ENGINE", Re.lit "DEFAULT", Re.lit "COMMENT", .chr ';', .eol]]

/-- The inner loop of "Marcar colunas como chave primária": the columns named
`pk_column` get their flag set. -/
def markPrimaryKey (columns : List ColumnInfo) (pk_column : String) : List ColumnInfo :=
  columns.map fun column =>
    if column.name == pk_column then { column with primary_key := true } else column

/-- The loop "Marcar colunas como chave primária" of `parseSQL`, over the names of
`primary_keys`. -/
def markPrimaryKeys (primary_keys : List String) (columns : List ColumnInfo) :
    List ColumnInfo :=
  primary_keys.foldl markPrimaryKey columns

/-- The table built by `parseSQL` from a table name and the body text. -/
def buildTable (table_name table_definition : String) : TableInfo :=
  let primary_keys := findPrimaryKeys table_definition
  { name := table_name
    class_name := toCamelCase table_name true
    columns := markPrimaryKeys primary_keys (parseColumns table_definition)
    primary_keys := primary_keys
    foreign_keys := findForeignKeys table_definition }

/-- The table name of a match of `create_table_pattern`. -/
def tableNameOfMatch (m : Match) : String :=
  if (m.str 1).isEmpty then m.str 2 else m.str 1

/-- The body text of a match of `create_table_pattern`, `iter->str(3)`. -/
def tableBodyOfMatch (m : Match) : String := m.str 3

/-- The function `parseSQL`. -/
def parseSQL (sql_content : String) : List TableInfo :=
  (regex_matches Flags.nocase create_table_pattern sql_content.toList).filterMap fun m =>
    if !(tableNameOfMatch m).isEmpty then
      some (buildTable (tableNameOfMatch m) (tableBodyOfMatch m))
    else none

/-! ## Relationship linker -/

/-- The map `table_map` of `processRelationships`, filled in the order of the
tables: `acc` holds the entries made so far, the most recent first, so that a
look-up finds the last table assigned to a name; `i` is the index of the next table. -/
def tableMap : List TableInfo → Nat → List (String × Nat) → List (String × Nat)
  | [], _, acc => acc
  | t :: ts, i, acc => tableMap ts (i + 1) ((t.name, i) :: acc)

/-- The update of one foreign key in `processRelationships`. -/
def linkForeignKey (table_map : List (String × Nat)) (fk : ForeignKeyInfo) : ForeignKeyInfo :=
  match table_map.lookup fk.referenced_table with
  | some p => { fk with referenced_table_info := some p }
  | none => fk

/-- The function `processRelationships` (its second argument is not used). -/
def processRelationships (tables : List TableInfo) : List TableInfo :=
  tables.map fun table =>
    { table with foreign_keys := table.foreign_keys.map (linkForeignKey (tableMap tables 0 [])) }

/-! ## Entity emitter

Every `generate...` procedure of the source appends text to the string stream
`sb`; it is modelled by the function that returns the appended text. -/

/-- The text appended by a loop that appends one piece per element. -/
def appendAll : List String → String
  | [] => ""
  | piece :: rest => piece ++ appendAll rest

/-- Lexicographic order of `std::string` (`operator<`). -/
def strLt : List Char → List Char → Bool
  | [], [] => false
  | [], _ :: _ => true
  | _ :: _, [] => false
  | a :: as, b :: bs => a.toNat < b.toNat || (a == b && strLt as bs)

/-- Insertion into a `std::set<std::string>`, kept as an ascending list without
duplicates. -/
def setInsert (x : String) : List String → List String
  | [] => [x]
  | y :: ys =>
    if strLt x.toList y.toList then x :: y :: ys
    else if x == y then y :: ys
    else y :: setInsert x ys

/-- The body of the loop that fills `imports`: the import of the mapped type of a
column, if it has one, is inserted. -/
def addImport (imports : List String) (column : ColumnInfo) : List String :=
  match IMPORT_MAP.lookup column.java_type with
  | some imp => setInsert imp imports
  | none => imports

/-- The set `imports` of `generateEntityClass`, in iteration order. -/
def importSet (table : TableInfo) : List String :=
  table.columns.foldl addImport
    (setInsert "java.io.Serializable" (setInsert "javax.persistence.*" []))

/-- The documentation comment of a field: lines 398 to 403 of `generateField`. -/
def fieldDoc (column : ColumnInfo) : String :=
  "    /**\n" ++ "     * Campo " ++ column.name ++
  (if !column.default_value.isEmpty then " (default: " ++ column.default_value ++ ")" else "") ++
  "\n     */\n"

/-- The identity and generation-strategy markers of a field: lines 405 to 410 of
`generateField`. -/
def fieldMarkers (column : ColumnInfo) : String :=
  if column.primary_key then
    "    @Id\n" ++
    (if column.auto_increment then
      "    @GeneratedValue(strategy = GenerationType.IDENTITY)\n" else "")
  else ""

/-- The column-mapping marker and the declaration of a field: lines 412 to 425 of
`generateField`. -/
def fieldColumn (column : ColumnInfo) : String :=
  "    @Column(name = \"" ++ column.name ++ "\"" ++
  (if !column.nullable then ", nullable = false" else "") ++
  (if !column.default_value.isEmpty && !column.primary_key then
    ", columnDefinition = \"" ++ column.sql_type ++
    (if !column.nullable then " NOT NULL" else "") ++
    " DEFAULT " ++ column.default_value ++ "\""
   else "") ++
  ")\n" ++
  "    private " ++ column.java_type ++ " " ++ column.field_name ++ ";\n\n"

/-- The import lines of `generateEntityClass`, one per element of `imports`. -/
def importLines (table : TableInfo) : List String :=
  (importSet table).map fun imp => "import " ++ imp ++ ";\n"

/-- The function `generateField`. -/
def generateField (column : ColumnInfo) : String :=
  fieldDoc column ++ fieldMarkers column ++ fieldColumn column

/-- The class name read through the pointer `fk.referenced_table_info`, which
points into the vector `tables`. -/
def referencedClassName (tables : List TableInfo) (fk : ForeignKeyInfo) : String :=
  match fk.referenced_table_info with
  | some p =>
    match tables[p]? with
    | some t => t.class_name
    | none => ""
  | none => ""

/-- The function `generateRelationshipField`. -/
def generateRelationshipField (tables : List TableInfo) (fk : ForeignKeyInfo) : String :=
  let referenced_class_name := referencedClassName tables fk
  let field_name := toCamelCase fk.referenced_table false
  "    /**\n" ++
  "     * Relacionamento com " ++ fk.referenced_table ++ "\n" ++
  "     */\n" ++
  "    @ManyToOne(fetch = FetchType.LAZY)\n" ++
  "    @JoinColumn(name = \"" ++ fk.column_name ++ "\")\n" ++
  "    private " ++ referenced_class_name ++ " " ++ field_name ++ ";\n\n"

/-- The columns `required_columns` of `generateConstructors`. -/
def requiredColumns (table : TableInfo) : List ColumnInfo :=
  table.columns.filter fun col => !col.nullable && !col.auto_increment

/-- The function `generateConstructors`. -/
def generateConstructors (table : TableInfo) : String :=
  let required_columns := requiredColumns table
  "    /**\n" ++
  "     * Construtor vazio\n" ++
  "     */\n" ++
  "    public " ++ table.class_name ++ "() \x7b\n" ++
  "    \x7d\n\n" ++
  (if !required_columns.isEmpty then
    "    /**\n" ++
    "     * Construtor com campos obrigatórios\n" ++
    "     */\n" ++
    "    public " ++ table.class_name ++ "(" ++
    ", ".intercalate (required_columns.map fun col => col.java_type ++ " " ++ col.field_name) ++
    ") \x7b\n" ++
    appendAll (required_columns.map fun col =>
      "        this." ++ col.field_name ++ " = " ++ col.field_name ++ ";\n") ++
    "    \x7d\n\n"
   else "")

/-- The function `generateGetterSetter`. -/
def generateGetterSetter (column : ColumnInfo) : String :=
  let capitalized_field_name := capitalizeFirst column.field_name
  "    public " ++ column.java_type ++ " get" ++ capitalized_field_name ++ "() \x7b\n" ++
  "        return " ++ column.field_name ++ ";\n" ++
  "    \x7d\n\n" ++
  "    public void set" ++ capitalized_field_name ++ "(" ++ column.java_type ++ " " ++
    column.field_name ++ ") \x7b\n" ++
  "        this." ++ column.field_name ++ " = " ++ column.field_name ++ ";\n" ++
  "    \x7d\n\n"

/-- The function `generateRelationshipGetterSetter`. -/
def generateRelationshipGetterSetter (tables : List TableInfo) (fk : ForeignKeyInfo) : String :=
  let referenced_class_name := referencedClassName tables fk
  let field_name := toCamelCase fk.referenced_table false
  let capitalized_field_name := capitalizeFirst field_name
  "    public " ++ referenced_class_name ++ " get" ++ capitalized_field_name ++ "() \x7b\n" ++
  "        return " ++ field_name ++ ";\n" ++
  "    \x7d\n\n" ++
  "    public void set" ++ capitalized_field_name ++ "(" ++ referenced_class_name ++ " " ++
    field_name ++ ") \x7b\n" ++
  "        this." ++ field_name ++ " = " ++ field_name ++ ";\n" ++
  "    \x7d\n\n"

/-- The columns `pk_columns` of `generateEqualsHashCode`. -/
def pkColumns (table : TableInfo) : List ColumnInfo :=
  table.columns.filter fun col => col.primary_key

/-- The function `generateEqualsHashCode`. -/
def generateEqualsHashCode (table : TableInfo) : String :=
  let pk_columns := pkColumns table
  if !pk_columns.isEmpty then
    "    @Override\n" ++
    "    public boolean equals(Object o) \x7b\n" ++
    "        if (this == o) return true;\n" ++
    "        if (o == null || getClass() != o.getClass()) return false;\n" ++
    "        " ++ table.class_name ++ " that = (" ++ table.class_name ++ ") o;\n" ++
    "        return " ++
    " && ".intercalate (pk_columns.map fun col =>
      "Objects.equals(" ++ col.field_name ++ ", that." ++ col.field_name ++ ")") ++
    ";\n" ++
    "    \x7d\n\n" ++
    "    @Override\n" ++
    "    public int hashCode() \x7b\n" ++
    "        return Objects.hash(" ++
    ", ".intercalate (pk_columns.map fun col => col.field_name) ++
    ");\n" ++
    "    \x7d\n\n"
  else ""

/-- The loop of `generateToString`: one line per column, the last one without the
separator. -/
def toStringLines : List ColumnInfo → String
  | [] => ""
  | [column] => "                \"" ++ column.field_name ++ "=\" + " ++ column.field_name ++ " +\n"
  | column :: rest =>
    "                \"" ++ column.field_name ++ "=\" + " ++ column.field_name ++
      " + \", \" +\n" ++ toStringLines rest

/-- The function `generateToString`. -/
def generateToString (table : TableInfo) : String :=
  "    @Override\n" ++
  "    public String toString() \x7b\n" ++
  "        return \"" ++ table.class_name ++ "\x7b\" +\n" ++
  toStringLines table.columns ++
  "                \"\x7d\";\n" ++
  "    \x7d\n"

/-- The loop "Relacionamentos" of `generateEntityClass`, lines 358 to 363: one
relationship field per foreign key whose link is set. -/
def relationshipFields (tables : List TableInfo) (table : TableInfo) : String :=
  appendAll (table.foreign_keys.map fun fk =>
    if fk.referenced_table_info.isSome then generateRelationshipField tables fk else "")

/-- The second loop over the foreign keys of `generateEntityClass`, lines 373 to 377:
one accessor pair per foreign key whose link is set. -/
def relationshipAccessors (tables : List TableInfo) (table : TableInfo) : String :=
  appendAll (table.foreign_keys.map fun fk =>
    if fk.referenced_table_info.isSome then generateRelationshipGetterSetter tables fk
    else "")

/-- The text `sb.str()` built by `generateEntityClass`. -/
def entityText (tables : List TableInfo) (table : TableInfo) (package_name : String) : String :=
  "package " ++ package_name ++ ";\n\n" ++
  appendAll (importLines table) ++
  "\n" ++
  "/**\n" ++
  " * Entidade JPA para a tabela " ++ table.name ++ "\n" ++
  " * Gerada automaticamente pelo SQLParserJPAGenerator\n" ++
  " */\n" ++
  "@Entity\n" ++
  "@Table(name = \"" ++ table.name ++ "\")\n" ++
  "public class " ++ table.class_name ++ " implements Serializable \x7b\n\n" ++
  "    private static final long serialVersionUID = 1L;\n\n" ++
  appendAll (table.columns.map generateField) ++
  relationshipFields tables table ++
  generateConstructors table ++
  appendAll (table.columns.map generateGetterSetter) ++
  relationshipAccessors tables table ++
  generateEqualsHashCode table ++
  generateToString table ++
  "\x7d\n"

/-- The path `fs::path(dir) / name`. -/
def pathJoin (dir name : String) : String :=
  if name.toList.head? == some '/' then name
  else if dir.isEmpty || dir.toList.getLast? == some '/' then dir ++ name
  else dir ++ "/" ++ name

/-- What the program does to the file system. -/
inductive Effect where
  /-- The call `fs::create_directories(dir)`. -/
  | createDirectories (dir : String)
  /-- The file `path` is opened for writing and `content` is written to it. -/
  | writeFile (path : String) (content : String)
  deriving Repr, DecidableEq

/-- The function `generateEntityClass`: the text is written to the file named
after the class, in the output directory.  `tables` is the vector the table
belongs to, which the pointers of its foreign keys point into. -/
def generateEntityClass (tables : List TableInfo) (table : TableInfo)
    (package_name output_dir : String) : Effect :=
  .writeFile (pathJoin output_dir (table.class_name ++ ".java"))
    (entityText tables table package_name)

/-! ## The run

Console output (`std::cout`, `std::cerr`) is not part of the model. -/

/-- The file system as the program meets it. -/
structure World where
  /-- The content of a file that can be opened for reading, `none` when
  `std::ifstream` fails to open it. -/
  readFile : String → Option String
  /-- Whether `fs::create_directories` succeeds on a path; it throws otherwise. -/
  canCreate : String → Bool

/-- The tables of a schema text: `cleanSQL`, `parseSQL`, `processRelationships`. -/
def schemaOf (sql_content : String) : List TableInfo :=
  processRelationships (parseSQL (cleanSQL sql_content))

/-- The function `generateEntitiesFromSQL`: the effects on the file system, or the
exception thrown by `fs::create_directories`. -/
def generateEntitiesFromSQL (w : World) (sql_file_path package_name output_dir : String) :
    Except String (List Effect) :=
  if !w.canCreate output_dir then .error "filesystem error"
  else
    match w.readFile sql_file_path with
    | none => .ok [.createDirectories output_dir]
    | some sql_content =>
      let tables := schemaOf sql_content
      .ok (.createDirectories output_dir ::
        tables.map fun table => generateEntityClass tables table package_name output_dir)

/-- The function `main`: the exit status and the effects on the file system, for
the argument vector `argv` (program name first). -/
def main (w : World) (argv : List String) : Nat × List Effect :=
  if argv.length < 2 then (1, [])
  else
    let sql_file_path := argv.getD 1 ""
    let package_name := if argv.length > 2 then argv.getD 2 "" else "com.example.entities"
    let output_dir := if argv.length > 3 then argv.getD 3 "" else "./generated-entities"
    match generateEntitiesFromSQL w sql_file_path package_name output_dir with
    | .ok effects => (0, effects)
    | .error _ => (1, [])

/-! ## Inputs of the scenarios -/

/-- The schema text of the end-to-end scenario. -/
def usersSql : String :=
  "CREATE TABLE users (id INT PRIMARY KEY AUTO_INCREMENT, email VARCHAR(255) NOT NULL, created_at TIMESTAMP)"

/-- The table body of the splitter scenario. -/
def splitterInput : String := "a INT, b DECIMAL(10,2), c VARCHAR(255) DEFAULT 'x,y'"

/-- A statement whose first column has a length and a default value. -/
def defaultSql : String := "CREATE TABLE t (a VARCHAR(5) DEFAULT 'x', b INT);"

/-- A world in which directories can be created and no file can be opened. -/
def noFileWorld : World := ⟨fun _ => none, fun _ => true⟩

/-- The type token of a column clause: the sub-match 3 of `column_pattern`. -/
def typeToken (column_definition : String) : Option String :=
  (regex_match Flags.nocase column_pattern column_definition.toList).map fun m => m.str 3

/-- A statement with a table-level primary key. -/
def tablePkSql : String := "CREATE TABLE t (id INT, name VARCHAR(50), PRIMARY KEY (id));"

/-- The body of `tablePkSql`. -/
def tablePkBody : String := "id INT, name VARCHAR(50), PRIMARY KEY (id)"

/-- Two tables that reference each other; the first also references itself and
the second a table that is not in the list.  No link is set. -/
def linkExample : List TableInfo :=
  [{ name := "a", class_name := "A",
     foreign_keys := [{ column_name := "b_id", referenced_table := "b",
                        referenced_column := "id" },
                      { column_name := "parent_id", referenced_table := "a",
                        referenced_column := "id" }] },
   { name := "b", class_name := "B",
     foreign_keys := [{ column_name := "a_id", referenced_table := "a",
                        referenced_column := "id" },
                      { column_name := "c_id", referenced_table := "c",
                        referenced_column := "id" }] }]

/-- The table without its unresolved foreign keys. -/
def dropUnresolved (table : TableInfo) : TableInfo :=
  { table with
    foreign_keys := table.foreign_keys.filter fun fk => fk.referenced_table_info.isSome }

/-! ## Notions of the specification -/

/-- A clause of the round trip, read from nesting depth `depth`: no closing
parenthesis without an opening one before it, no comma at depth zero, and depth
zero at the end. -/
def isClauseFrom : List Char → Nat → Bool
  | [], depth => depth == 0
  | c :: cs, depth =>
    if c == '(' then isClauseFrom cs (depth + 1)
    else if c == ')' then decide (0 < depth) && isClauseFrom cs (depth - 1)
    else if c == ',' then decide (0 < depth) && isClauseFrom cs depth
    else isClauseFrom cs depth

/-- Whether a clause matches the column shape: `std::regex_match` succeeds. -/
def matchesColumnShape (clause : String) : Bool :=
  (regex_match Flags.nocase column_pattern clause.toList).isSome

/-- A table with an auto-incremented key, a nullable column and two required columns. -/
def ordersTable : TableInfo :=
  { name := "orders", class_name := "Orders",
    columns :=
      [{ name := "id", field_name := "id", sql_type := "INT", java_type := "Integer",
         nullable := false, primary_key := true, auto_increment := true },
       { name := "note", field_name := "note", sql_type := "TEXT", java_type := "String" },
       { name := "qty", field_name := "qty", sql_type := "INT", java_type := "Integer",
         nullable := false },
       { name := "ref_code", field_name := "refCode", sql_type := "VARCHAR",
         java_type := "String", nullable := false, primary_key := true }] }

/-- A table whose only column is nullable and is not a primary key. -/
def notesTable : TableInfo :=
  { name := "notes", class_name := "Notes",
    columns := [{ name := "note", field_name := "note", sql_type := "TEXT",
                  java_type := "String" }] }

/-- The text of the generation-strategy marker. -/
def generatedValueMarker : String := "@GeneratedValue(strategy = GenerationType.IDENTITY)"

/-- Every import that `generateEntityClass` can render, in ascending order. -/
def possibleImports : List String :=
  ["java.io.Serializable", "java.math.BigDecimal", "java.math.BigInteger",
   "java.time.LocalDate", "java.time.LocalDateTime", "java.time.LocalTime",
   "java.util.Objects", "java.util.UUID", "javax.persistence.*"]

/-- A table whose columns need three imports, one of them twice. -/
def eventsTable : TableInfo :=
  { name := "events", class_name := "Events",
    columns :=
      [{ name := "id", field_name := "id", sql_type := "UUID", java_type := "UUID" },
       { name := "day", field_name := "day", sql_type := "DATE", java_type := "LocalDate" },
       { name := "price", field_name := "price", sql_type := "DECIMAL",
         java_type := "BigDecimal" },
       { name := "until", field_name := "until", sql_type := "DATE",
         java_type := "LocalDate" }] }

/-- A schema with two tables whose names differ by one underscore. -/
def collidingSql : String :=
  "CREATE TABLE order_item (id INT); CREATE TABLE order__item (qty INT);"

/-- A world in which `schema.sql` holds `collidingSql`. -/
def collidingWorld : World :=
  ⟨fun path => if path = "schema.sql" then some collidingSql else none, fun _ => true⟩

/-- The path an effect acts on. -/
def Effect.path : Effect → String
  | .createDirectories dir => dir
  | .writeFile path _ => path

/-- White-space normalisation as the specification words it: every maximal run of
white space becomes one space, every other character is kept.  The flag tells
that the character before was white space. -/
def collapseWs : Bool → List Char → List Char
  | _, [] => []
  | inRun, c :: cs =>
    if isspace c then
      if inRun then collapseWs true cs else ' ' :: collapseWs true cs
    else c :: collapseWs false cs

/-- The text that `regex_replace` builds from the matches found with a given counter. -/
def replaceOut (f : Flags) (r : Re) (fmt : List Char) (n : Nat) (s : List Char) : List Char :=
  ((regexIter f r n s).map fun m => m.before ++ fmt).flatten ++ lastAfter s (regexIter f r n s)

/-- A schema text with tabs, line ends, comments, a vertical tab and a form feed. -/
def messySql : String :=
  "CREATE\tTABLE t (\n  a INT, -- first\n  b INT /* second\n column */\r\n);\x0b\x0c"

/-- The mapped types a parsed column can have. -/
def mappedTypes : List String :=
  ["String", "Byte", "Short", "Integer", "Long", "BigInteger", "BigDecimal", "Float", "Double",
   "LocalDate", "LocalTime", "LocalDateTime", "Boolean", "byte[]", "UUID"]

/-- The resolved foreign keys of a table: those whose link is set. -/
def resolvedForeignKeys (table : TableInfo) : List ForeignKeyInfo :=
  table.foreign_keys.filter fun fk => fk.referenced_table_info.isSome

/-- A schema in which the table `msg` references the table `users` twice. -/
def msgSql : String :=
  "CREATE TABLE msg (id INT, sender_id INT, receiver_id INT, FOREIGN KEY (sender_id) REFERENCES users(id), FOREIGN KEY (receiver_id) REFERENCES users(id)); CREATE TABLE users (id INT);"

/-- A foreign key of the first table of `linkExample`, linked to the second table. -/
def linkedKey : ForeignKeyInfo :=
  { column_name := "b_id", referenced_table := "b", referenced_column := "id",
    referenced_table_info := some 1 }

/-! ## Theorems -/

set_option maxRecDepth 1000000

/-- C1 (evaluation at the failing input): on the end-to-end schema text the clause
of `id` is matched with the type token `INT PRIMARY KEY` and no inline primary-key
sub-match, so the column `id` has `primary_key = false` and mapped type `String`,
its field is rendered without `@Id` and `@GeneratedValue`, and no equals/hashCode
is rendered. -/
theorem C1_users_id_column_eval :
    cleanSQL usersSql = usersSql ∧
    (regex_match Flags.nocase column_pattern "id INT PRIMARY KEY AUTO_INCREMENT".toList).map
        (fun m => (m.str 2, m.str 3, m.str 5, m.str 6)) =
      some ("id", "INT PRIMARY KEY", "AUTO_INCREMENT", "") ∧
    (schemaOf usersSql).map (fun t => t.columns.head?) =
      [some { name := "id", field_name := "id", sql_type := "INT PRIMARY KEY",
              java_type := "String", nullable := true, primary_key := false,
              auto_increment := true, default_value := "" }] ∧
    (schemaOf usersSql).map (fun t => t.columns.head?.map generateField) =
      [some "    /**\n     * Campo id\n     */\n    @Column(name = \"id\")\n    private String id;\n\n"] ∧
    (schemaOf usersSql).map generateEqualsHashCode = [""] := by
  decide

/-- C2 (counterexample): on the splitter scenario the result is not the three
clauses `a INT`, `b DECIMAL(10,2)`, `c VARCHAR(255) DEFAULT 'x,y'`. -/
theorem C2_not_three_clauses :
    splitByCommaIgnoringParentheses splitterInput ≠
      ["a INT", "b DECIMAL(10,2)", "c VARCHAR(255) DEFAULT 'x,y'"] := by
  decide

/-- C2 (amended): on the splitter scenario the result is the four clauses `a INT`,
`b DECIMAL(10,2)`, `c VARCHAR(255) DEFAULT 'x` and `y'`: the comma inside the
parentheses stays in its clause, the comma inside the quoted default splits. -/
theorem C2_four_clauses :
    splitByCommaIgnoringParentheses splitterInput =
      ["a INT", "b DECIMAL(10,2)", "c VARCHAR(255) DEFAULT 'x", "y'"] := by
  decide

/-- C3 (evaluation at the failing input): for the statement
`CREATE TABLE t (a VARCHAR(5) DEFAULT 'x', b INT);` the only match has the name `t`
and the body `a VARCHAR(5`, cut at the first closing parenthesis that a
terminator keyword follows, and `parseSQL` produces the column `a` only. -/
theorem C3_body_cut_at_default :
    (regex_matches Flags.nocase create_table_pattern defaultSql.toList).map
        (fun m => (tableNameOfMatch m, tableBodyOfMatch m)) = [("t", "a VARCHAR(5")] ∧
    (parseSQL defaultSql).map (fun t => (t.name, t.columns.map fun c => c.name)) =
      [("t", ["a"])] := by
  decide

/-- C4 (evaluation at the failing input): when the schema file cannot be opened,
`main` has created the output directory and returns the exit status 0. -/
theorem C4_open_failure_exit_zero :
    main noFileWorld ["sqlToJPA", "missing.sql"] =
      (0, [Effect.createDirectories "./generated-entities"]) := by
  decide

/-- C5: `convertSQLTypeToJava` is the look-up in the table of 43 distinct keys with
the default `String`: every key is sent to its paired type, every other string
(the empty string and `int` among them) to `String`. -/
theorem C5_convertSQLTypeToJava_lookup :
    SQL_TO_JAVA_TYPE_MAP.length = 43 ∧
    (SQL_TO_JAVA_TYPE_MAP.map Prod.fst).Nodup ∧
    (∀ p ∈ SQL_TO_JAVA_TYPE_MAP, convertSQLTypeToJava p.1 = p.2) ∧
    (∀ p ∈ [("VARCHAR", "String"), ("TINYINT", "Byte"), ("SMALLINT", "Short"),
        ("INT", "Integer"), ("BIGINT", "Long"), ("DECIMAL", "BigDecimal"),
        ("DOUBLE", "Double"), ("DATE", "LocalDate"), ("TIME", "LocalTime"),
        ("TIMESTAMP", "LocalDateTime"), ("BOOLEAN", "Boolean"), ("BLOB", "byte[]"),
        ("JSON", "String"), ("UUID", "UUID")],
      convertSQLTypeToJava p.1 = p.2) ∧
    (∀ s : String, s ∉ SQL_TO_JAVA_TYPE_MAP.map Prod.fst → convertSQLTypeToJava s = "String") ∧
    convertSQLTypeToJava "" = "String" ∧
    convertSQLTypeToJava "int" = "String" := by
  refine ⟨by decide, by decide, by decide, by decide, ?_, by decide, by decide⟩
  intro s hs
  have hnone : SQL_TO_JAVA_TYPE_MAP.lookup s = none := by
    rw [List.lookup_eq_none_iff]
    intro p hp
    simp only [bne_iff_ne, ne_eq]
    intro h
    exact hs (List.mem_map.2 ⟨p, hp, h.symm⟩)
  simp [convertSQLTypeToJava, hnone]

/-- C5 (witness): the string `VARCHAR2` is not a key and is sent to `String`. -/
theorem C5_convertSQLTypeToJava_lookup_witness :
    "VARCHAR2" ∉ SQL_TO_JAVA_TYPE_MAP.map Prod.fst ∧ convertSQLTypeToJava "VARCHAR2" = "String" :=
  ⟨by decide, C5_convertSQLTypeToJava_lookup.2.2.2.2.1 "VARCHAR2" (by decide)⟩

/-- Upper-casing distributes over concatenation. -/
theorem toUpperStr_append (a b : String) : toUpperStr (a ++ b) = toUpperStr a ++ toUpperStr b := by
  apply String.ext
  simp [toUpperStr, String.toList, String.data_append]

/-- A text occurs in every string built around it. -/
theorem containsSub_append (needle pre post : List Char) :
    containsSub needle (pre ++ needle ++ post) = true := by
  induction pre with
  | nil =>
    cases needle with
    | nil => cases post <;> simp [containsSub]
    | cons c cs =>
      have h : (c :: cs).isPrefixOf (c :: cs ++ post) = true :=
        List.isPrefixOf_iff_prefix.2 (List.prefix_append _ _)
      simp only [List.nil_append, List.cons_append, containsSub, Bool.or_eq_true]
      exact Or.inl h
  | cons a pre ih =>
    simp only [List.cons_append, containsSub, Bool.or_eq_true]
    exact Or.inr (by simpa using ih)

/-- A scan stops at the first character that fails the test. -/
theorem takeWhile_stop (p : Char → Bool) (l r : List Char) (c : Char)
    (hl : ∀ x ∈ l, p x = true) (hc : p c = false) : (l ++ c :: r).takeWhile p = l := by
  induction l with
  | nil => simp [List.takeWhile, hc]
  | cons a l ih =>
    have ha : p a = true := hl a (List.mem_cons_self _ _)
    simp only [List.cons_append, List.takeWhile_cons, ha, if_true]
    rw [ih (fun x hx => hl x (List.mem_cons_of_mem _ hx))]

/-- What follows the first opening parenthesis is dropped by `extractBaseType`. -/
theorem extractBaseType_paren (T x : String)
    (hT : ∀ c ∈ T.toList, (c != '(') = true) :
    extractBaseType (T ++ "(" ++ x) = extractBaseType T := by
  have h1 : (T ++ "(" ++ x).toList = T.toList ++ '(' :: x.toList := by
    simp [String.toList, String.data_append]
  have h2 : T.toList.takeWhile (fun c => c != '(') = T.toList := by
    rw [List.takeWhile_eq_self_iff]; exact hT
  unfold extractBaseType
  simp only [h1, h2]
  rw [takeWhile_stop _ _ _ _ hT (by decide)]

/-- The mapped type of an upper-case token `T(n) UNSIGNED`. -/
theorem javaTypeOfToken_paren_unsigned (T n : String)
    (hT : ∀ c ∈ T.toList, (c != '(') = true) (hU : toUpperStr T = T) :
    javaTypeOfToken (toUpperStr (T ++ "(" ++ n ++ ") UNSIGNED")) =
      adjustForUnsigned (convertSQLTypeToJava (extractBaseType T)) := by
  have hup : toUpperStr (T ++ "(" ++ n ++ ") UNSIGNED") =
      T ++ "(" ++ (toUpperStr n ++ ") UNSIGNED") := by
    rw [toUpperStr_append, toUpperStr_append, toUpperStr_append, hU]
    have h1 : toUpperStr "(" = "(" := by decide
    have h2 : toUpperStr ") UNSIGNED" = ") UNSIGNED" := by decide
    rw [h1, h2, String.append_assoc]
  have hsub : containsSub "UNSIGNED".toList
      (T ++ "(" ++ (toUpperStr n ++ ") UNSIGNED")).toList = true := by
    have hl : (T ++ "(" ++ (toUpperStr n ++ ") UNSIGNED")).toList =
        (T.toList ++ '(' :: (toUpperStr n).toList ++ [')', ' ']) ++ "UNSIGNED".toList ++ [] := by
      simp [String.toList, String.data_append]
    rw [hl]
    exact containsSub_append _ _ _
  rw [hup]
  unfold javaTypeOfToken
  simp only [hsub, if_true]
  rw [extractBaseType_paren T _ hT]

/-- The mapped type of a parsed column is computed from its type token. -/
theorem parseColumn_java_type (clause tok : String) (h : typeToken clause = some tok) :
    (parseColumn clause).java_type = javaTypeOfToken (toUpperStr tok) := by
  unfold typeToken at h
  unfold parseColumn
  cases hm : regex_match Flags.nocase column_pattern clause.toList with
  | none => rw [hm] at h; simp at h
  | some m =>
    rw [hm] at h
    simp only [Option.map_some', Option.some.injEq] at h
    simp [columnOfMatch, h]

/-- Outside the four widened types `adjustForUnsigned` is the identity. -/
theorem adjustForUnsigned_other (j : String) (h : j ∉ ["Byte", "Short", "Integer", "Long"]) :
    adjustForUnsigned j = j := by
  simp only [List.mem_cons, List.mem_singleton, List.not_mem_nil, or_false, not_or] at h
  simp [adjustForUnsigned, h.1, h.2.1, h.2.2.1, h.2.2.2]

/-- C6: a column whose type token is `T UNSIGNED` or `T(n) UNSIGNED`, for `T` one of
TINYINT, SMALLINT, MEDIUMINT, INT, INTEGER, BIGINT, gets the mapped type one step
wider than the type mapped to `T` (Short, Integer, Long, Long, Long, BigInteger);
`adjustForUnsigned` follows the chain Byte, Short, Integer, Long, BigInteger, maps
BigInteger to itself and fixes every type outside Byte, Short, Integer, Long. -/
theorem C6_unsigned_widening :
    (∀ (T wide n clause : String),
      (T, wide) ∈ [("TINYINT", "Short"), ("SMALLINT", "Integer"), ("MEDIUMINT", "Long"),
        ("INT", "Long"), ("INTEGER", "Long"), ("BIGINT", "BigInteger")] →
      (typeToken clause = some (T ++ " UNSIGNED") ∨
        typeToken clause = some (T ++ "(" ++ n ++ ") UNSIGNED")) →
      (parseColumn clause).java_type = wide ∧
        wide = adjustForUnsigned (convertSQLTypeToJava T)) ∧
    adjustForUnsigned "Byte" = "Short" ∧
    adjustForUnsigned "Short" = "Integer" ∧
    adjustForUnsigned "Integer" = "Long" ∧
    adjustForUnsigned "Long" = "BigInteger" ∧
    adjustForUnsigned "BigInteger" = "BigInteger" ∧
    (∀ j : String, j ∉ ["Byte", "Short", "Integer", "Long"] → adjustForUnsigned j = j) := by
  refine ⟨?_, by decide, by decide, by decide, by decide, by decide, adjustForUnsigned_other⟩
  intro T wide n clause hT htok
  simp only [List.mem_cons, Prod.mk.injEq, List.mem_singleton, List.not_mem_nil, or_false] at hT
  rcases htok with htok | htok
  · rw [parseColumn_java_type clause _ htok]
    rcases hT with ⟨rfl, rfl⟩ | ⟨rfl, rfl⟩ | ⟨rfl, rfl⟩ | ⟨rfl, rfl⟩ | ⟨rfl, rfl⟩ | ⟨rfl, rfl⟩ <;>
      decide
  · rw [parseColumn_java_type clause _ htok]
    rcases hT with ⟨rfl, rfl⟩ | ⟨rfl, rfl⟩ | ⟨rfl, rfl⟩ | ⟨rfl, rfl⟩ | ⟨rfl, rfl⟩ | ⟨rfl, rfl⟩ <;>
      (rw [javaTypeOfToken_paren_unsigned _ n (by decide) (by decide)]; decide)

/-- C6 (witness): the clause `c INT(11) UNSIGNED` has the type token
`INT(11) UNSIGNED` and the mapped type `Long`. -/
theorem C6_unsigned_widening_witness :
    typeToken "c INT(11) UNSIGNED" = some ("INT" ++ "(" ++ "11" ++ ") UNSIGNED") ∧
    ((parseColumn "c INT(11) UNSIGNED").java_type = "Long" ∧
      "Long" = adjustForUnsigned (convertSQLTypeToJava "INT")) :=
  ⟨by decide, C6_unsigned_widening.1 "INT" "Long" "11" "c INT(11) UNSIGNED" (by decide)
    (Or.inr (by decide))⟩

/-- Every table of `parseSQL` is built from a match of the table pattern. -/
theorem mem_parseSQL (sql_content : String) (t : TableInfo) (h : t ∈ parseSQL sql_content) :
    ∃ m ∈ regex_matches Flags.nocase create_table_pattern sql_content.toList,
      t = buildTable (tableNameOfMatch m) (tableBodyOfMatch m) := by
  unfold parseSQL at h
  rw [List.mem_filterMap] at h
  obtain ⟨m, hm, hx⟩ := h
  refine ⟨m, hm, ?_⟩
  by_cases hn : (!(tableNameOfMatch m).isEmpty) = true
  · rw [if_pos hn] at hx
    exact (Option.some.inj hx).symm
  · rw [if_neg hn] at hx
    cases hx

/-- The marking loop sets the flag of a column when its name is in the list. -/
theorem markPrimaryKeys_eq_map (pks : List String) (cols : List ColumnInfo) :
    markPrimaryKeys pks cols =
      cols.map fun c => if pks.contains c.name then { c with primary_key := true } else c := by
  unfold markPrimaryKeys
  induction pks generalizing cols with
  | nil => simp
  | cons pk pks ih =>
    rw [List.foldl_cons, ih, markPrimaryKey, List.map_map]
    apply List.map_congr_left
    intro c _
    by_cases hpk : c.name = pk
    · by_cases hc : pks.contains c.name = true <;> simp [hpk, hc]
    · have hpk2 : (c.name == pk) = false := by simpa using hpk
      by_cases hc : pks.contains c.name = true <;> simp [hpk, hpk2, hc]

/-- The marking loop changes the primary-key flag of the named columns only. -/
theorem markPrimaryKeys_forall₂ (pks : List String) (cols : List ColumnInfo) :
    List.Forall₂
      (fun c c0 => c.name = c0.name ∧
        (c0.name ∈ pks → c = { c0 with primary_key := true }) ∧ (c0.name ∉ pks → c = c0))
      (markPrimaryKeys pks cols) cols := by
  rw [markPrimaryKeys_eq_map, List.forall₂_map_left_iff]
  apply List.forall₂_same.2
  intro c _
  by_cases hc : pks.contains c.name = true
  · have hmem : c.name ∈ pks := by simpa using hc
    simp [hc, hmem]
  · have hmem : c.name ∉ pks := by simpa using hc
    simp [hc, hmem]

/-- After the marking loop a column named in the list has its flag set. -/
theorem markPrimaryKeys_flag (pks : List String) (cols : List ColumnInfo) :
    ∀ c ∈ markPrimaryKeys pks cols, c.name ∈ pks → c.primary_key = true := by
  intro c hc hn
  rw [markPrimaryKeys_eq_map, List.mem_map] at hc
  obtain ⟨c0, _, rfl⟩ := hc
  by_cases h0 : pks.contains c0.name = true
  · rw [if_pos h0]
  · rw [if_neg h0] at hn
    exact absurd (by simpa using hn) h0

/-- C7: in every table returned by `parseSQL`, a column named in `primary_keys` has
`primary_key = true`; the columns are those of `parseColumns` on the body, in
order, a named one with its flag set and every other one unchanged.  For the
body `id INT, name VARCHAR(50), PRIMARY KEY (id)` neither clause carries an inline
flag, and the table has `id` flagged and `name` not flagged. -/
theorem C7_table_level_primary_key :
    (∀ (sql_content : String) (t : TableInfo), t ∈ parseSQL sql_content →
      (∀ c ∈ t.columns, c.name ∈ t.primary_keys → c.primary_key = true) ∧
      ∃ m ∈ regex_matches Flags.nocase create_table_pattern sql_content.toList,
        t.primary_keys = findPrimaryKeys (tableBodyOfMatch m) ∧
        List.Forall₂
          (fun c c0 => c.name = c0.name ∧
            (c0.name ∈ t.primary_keys → c = { c0 with primary_key := true }) ∧
            (c0.name ∉ t.primary_keys → c = c0))
          t.columns (parseColumns (tableBodyOfMatch m))) ∧
    (parseSQL tablePkSql).map
        (fun t => (t.primary_keys, t.columns.map fun c => (c.name, c.primary_key))) =
      [(["id"], [("id", true), ("name", false)])] ∧
    (parseColumns tablePkBody).map
        (fun c => (c.name, c.primary_key)) = [("id", false), ("name", false)] ∧
    findPrimaryKeys tablePkBody = ["id"] := by
  refine ⟨?_, by decide, by decide, by decide⟩
  intro sql_content t ht
  obtain ⟨m, hm, rfl⟩ := mem_parseSQL sql_content t ht
  refine ⟨?_, m, hm, rfl, ?_⟩
  · exact markPrimaryKeys_flag _ _
  · exact markPrimaryKeys_forall₂ _ _

/-- C7 (witness): the table built from `tablePkSql` is returned by `parseSQL`, and
its column `id`, named in the primary-key list, is flagged. -/
theorem C7_table_level_primary_key_witness :
    buildTable "t" tablePkBody ∈ parseSQL tablePkSql ∧
    (∀ c ∈ (buildTable "t" tablePkBody).columns,
      c.name ∈ (buildTable "t" tablePkBody).primary_keys → c.primary_key = true) :=
  ⟨by decide, (C7_table_level_primary_key.1 tablePkSql (buildTable "t" tablePkBody)
    (by decide)).1⟩

/-- A name is absent from `table_map` exactly when no table has it. -/
theorem tableMap_lookup_none (ts : List TableInfo) (i : Nat) (acc : List (String × Nat))
    (k : String) :
    (tableMap ts i acc).lookup k = none ↔ (∀ t ∈ ts, t.name ≠ k) ∧ acc.lookup k = none := by
  induction ts generalizing i acc with
  | nil => simp [tableMap]
  | cons t ts ih =>
    rw [tableMap, ih]
    by_cases hk : k = t.name
    · subst hk
      simp [List.lookup]
    · have hk2 : (k == t.name) = false := by simpa using hk
      have hk3 : t.name ≠ k := fun h => hk h.symm
      simp [List.lookup, hk2, hk3]

/-- An entry of `table_map` is the index of a table with that name. -/
theorem tableMap_lookup_some (ts : List TableInfo) (i : Nat) (acc : List (String × Nat))
    (k : String) (p : Nat) (h : (tableMap ts i acc).lookup k = some p) :
    (∃ t, ts[p - i]? = some t ∧ i ≤ p ∧ t.name = k) ∨ acc.lookup k = some p := by
  induction ts generalizing i acc with
  | nil => exact Or.inr (by simpa [tableMap] using h)
  | cons t ts ih =>
    rw [tableMap] at h
    rcases ih (i + 1) _ h with ⟨t2, hget, hle, hname⟩ | hacc
    · refine Or.inl ⟨t2, ?_, by omega, hname⟩
      have hp : p - i = (p - (i + 1)) + 1 := by omega
      rw [hp, List.getElem?_cons_succ]
      exact hget
    · by_cases hk : k = t.name
      · subst hk
        simp [List.lookup] at hacc
        subst hacc
        exact Or.inl ⟨t, by simp, le_refl _, rfl⟩
      · have hk2 : (k == t.name) = false := by simpa using hk
        simp [List.lookup, hk2] at hacc
        exact Or.inr hacc

/-- The linking pass keeps the names of the tables, position by position. -/
theorem processRelationships_names (tables : List TableInfo) :
    (processRelationships tables).map (fun t => t.name) = tables.map (fun t => t.name) := by
  simp [processRelationships, List.map_map, Function.comp_def]

/-- The linking pass keeps the name of the table at each index. -/
theorem processRelationships_get? (tables : List TableInfo) (p : Nat) (t : TableInfo)
    (h : tables[p]? = some t) :
    ∃ t2, (processRelationships tables)[p]? = some t2 ∧ t2.name = t.name := by
  unfold processRelationships
  rw [List.getElem?_map, h]
  exact ⟨_, rfl, rfl⟩

/-- C8: when `processRelationships` runs on tables whose links are unset (as
`findForeignKeys` leaves them), every foreign key of every table has its link set
exactly when some table of the list has the referenced name, and a set link
designates a table of the list with that name. -/
theorem C8_relationship_linking (tables : List TableInfo)
    (hunset : ∀ t ∈ tables, ∀ fk ∈ t.foreign_keys, fk.referenced_table_info = none) :
    (processRelationships tables).map (fun t => t.name) = tables.map (fun t => t.name) ∧
    ∀ t ∈ processRelationships tables, ∀ fk ∈ t.foreign_keys,
      (fk.referenced_table_info.isSome = true ↔
        ∃ t2 ∈ processRelationships tables, t2.name = fk.referenced_table) ∧
      (∀ p, fk.referenced_table_info = some p →
        ∃ t2, (processRelationships tables)[p]? = some t2 ∧
          t2.name = fk.referenced_table) := by
  refine ⟨processRelationships_names tables, ?_⟩
  intro t ht fk hfk
  have hnames : ∀ k : String, (∃ t2 ∈ processRelationships tables, t2.name = k) ↔
      ∃ t0 ∈ tables, t0.name = k := by
    intro k
    constructor
    · rintro ⟨t2, h2, rfl⟩
      unfold processRelationships at h2
      rw [List.mem_map] at h2
      obtain ⟨t0, h0, rfl⟩ := h2
      exact ⟨t0, h0, rfl⟩
    · rintro ⟨t0, h0, rfl⟩
      exact ⟨_, List.mem_map.2 ⟨t0, h0, rfl⟩, rfl⟩
  unfold processRelationships at ht
  rw [List.mem_map] at ht
  obtain ⟨t0, ht0, rfl⟩ := ht
  simp only [List.mem_map] at hfk
  obtain ⟨fk0, hfk0, rfl⟩ := hfk
  have h0 := hunset t0 ht0 fk0 hfk0
  unfold linkForeignKey
  cases hl : (tableMap tables 0 []).lookup fk0.referenced_table with
  | none =>
    have hno := (tableMap_lookup_none tables 0 [] fk0.referenced_table).1 hl
    simp only [h0, Option.isSome_none, Bool.false_eq_true, false_iff, not_exists, not_and]
    refine ⟨?_, by intro p hp; cases hp⟩
    intro t2 h2 hn
    obtain ⟨t3, h3, hn3⟩ := (hnames _).1 ⟨t2, h2, hn⟩
    exact hno.1 t3 h3 hn3
  | some p =>
    rcases tableMap_lookup_some tables 0 [] _ p hl with ⟨t1, hget, _, hname⟩ | hacc
    · simp only [Option.isSome_some, true_iff, Option.some.injEq]
      refine ⟨(hnames _).2 ⟨t1, List.getElem?_mem hget, hname⟩, ?_⟩
      intro q hq
      subst hq
      obtain ⟨t2, hg2, hn2⟩ := processRelationships_get? tables _ t1 hget
      exact ⟨t2, hg2, hn2.trans hname⟩
    · simp [List.lookup] at hacc

/-- C8 (witness): on `linkExample` the links to `a` and `b` are set, to the indices
0 and 1, and the link to the absent table `c` stays unset. -/
theorem C8_relationship_linking_witness :
    (∀ t ∈ linkExample, ∀ fk ∈ t.foreign_keys, fk.referenced_table_info = none) ∧
    (processRelationships linkExample).map
        (fun t => t.foreign_keys.map fun fk => (fk.referenced_table, fk.referenced_table_info)) =
      [[("b", some 1), ("a", some 0)], [("a", some 0), ("c", none)]] ∧
    ((processRelationships linkExample).map (fun t => t.name) =
        linkExample.map (fun t => t.name) ∧
      ∀ t ∈ processRelationships linkExample, ∀ fk ∈ t.foreign_keys,
        (fk.referenced_table_info.isSome = true ↔
          ∃ t2 ∈ processRelationships linkExample, t2.name = fk.referenced_table) ∧
        (∀ p, fk.referenced_table_info = some p →
          ∃ t2, (processRelationships linkExample)[p]? = some t2 ∧
            t2.name = fk.referenced_table)) :=
  ⟨by decide, by decide, C8_relationship_linking linkExample (by decide)⟩

/-- Pieces that are empty can be left out of a loop. -/
theorem appendAll_map_filter {α : Type} (p : α → Bool) (f : α → String) (l : List α) :
    appendAll ((l.filter p).map fun x => if p x then f x else "") =
      appendAll (l.map fun x => if p x then f x else "") := by
  induction l with
  | nil => rfl
  | cons a l ih =>
    by_cases ha : p a = true
    · simp [List.filter_cons, ha, appendAll, ih]
    · simp [List.filter_cons, ha, appendAll, ih]

/-- The class name behind a link does not depend on the foreign keys of the tables. -/
theorem referencedClassName_dropUnresolved (tables : List TableInfo) (fk : ForeignKeyInfo) :
    referencedClassName (tables.map dropUnresolved) fk = referencedClassName tables fk := by
  unfold referencedClassName
  cases fk.referenced_table_info with
  | none => rfl
  | some p =>
    simp only [List.getElem?_map]
    cases tables[p]? with
    | none => rfl
    | some t => rfl

/-- The rendered text ignores the unresolved foreign keys of the table. -/
theorem entityText_dropUnresolved (tables : List TableInfo) (table : TableInfo)
    (package_name : String) :
    entityText tables (dropUnresolved table) package_name = entityText tables table package_name := by
  unfold entityText
  have h1 := appendAll_map_filter (fun fk : ForeignKeyInfo => fk.referenced_table_info.isSome)
    (generateRelationshipField tables) table.foreign_keys
  have h2 := appendAll_map_filter (fun fk : ForeignKeyInfo => fk.referenced_table_info.isSome)
    (generateRelationshipGetterSetter tables) table.foreign_keys
  show _ ++ _ = _
  simp only [dropUnresolved, relationshipFields, relationshipAccessors, importLines, importSet,
    generateConstructors, requiredColumns, generateEqualsHashCode, pkColumns, generateToString, h1, h2]

/-- The rendered text ignores the unresolved foreign keys of the pointed tables. -/
theorem entityText_tables (tables : List TableInfo) (table : TableInfo)
    (package_name : String) :
    entityText (tables.map dropUnresolved) table package_name =
      entityText tables table package_name := by
  unfold entityText
  have h1 : generateRelationshipField (tables.map dropUnresolved) =
      generateRelationshipField tables := by
    funext fk; simp only [generateRelationshipField, referencedClassName_dropUnresolved]
  have h2 : generateRelationshipGetterSetter (tables.map dropUnresolved) =
      generateRelationshipGetterSetter tables := by
    funext fk; simp only [generateRelationshipGetterSetter, referencedClassName_dropUnresolved]
  unfold relationshipFields relationshipAccessors
  rw [h1, h2]

/-- C9: the artifact written by `generateEntityClass` (path and text) is the same for
a table and for the table without its unresolved foreign keys, for every
package name and output directory, and also when the unresolved foreign keys
are removed from every table of the vector. -/
theorem C9_unresolved_dropped (tables : List TableInfo) (table : TableInfo)
    (package_name output_dir : String) :
    generateEntityClass tables (dropUnresolved table) package_name output_dir =
      generateEntityClass tables table package_name output_dir ∧
    generateEntityClass (tables.map dropUnresolved) (dropUnresolved table) package_name output_dir =
      generateEntityClass tables table package_name output_dir := by
  unfold generateEntityClass
  rw [entityText_tables, entityText_dropUnresolved]
  exact ⟨rfl, rfl⟩

/-- C10: on the end-to-end schema text `parseSQL` returns one table, `users` with
class name `Users`, with the columns `id`, `email`, `created_at` in this order;
`email` is not nullable and mapped to `String`, `created_at` is nullable and mapped
to `LocalDateTime`; the required-arguments constructor has the single parameter
`String email`. -/
theorem C10_users_remaining_columns :
    cleanSQL usersSql = usersSql ∧
    (parseSQL usersSql).map (fun t => (t.name, t.class_name, t.columns.map fun c => c.name)) =
      [("users", "Users", ["id", "email", "created_at"])] ∧
    (parseSQL usersSql).map (fun t => t.columns.tail) =
      [[{ name := "email", field_name := "email", sql_type := "VARCHAR", java_type := "String",
          nullable := false, primary_key := false, auto_increment := false,
          default_value := "" },
        { name := "created_at", field_name := "createdAt", sql_type := "TIMESTAMP",
          java_type := "LocalDateTime", nullable := true, primary_key := false,
          auto_increment := false, default_value := "" }]] ∧
    (parseSQL usersSql).map (fun t => (requiredColumns t).map fun c => (c.java_type, c.field_name)) =
      [[("String", "email")]] ∧
    (parseSQL usersSql).map generateConstructors =
      ["    /**\n     * Construtor vazio\n     */\n    public Users() \x7b\n    \x7d\n\n" ++
       "    /**\n     * Construtor com campos obrigatórios\n     */\n" ++
       "    public Users(String email) \x7b\n        this.email = email;\n    \x7d\n\n"] := by
  decide

/-- Soundness of the iteration loop of a starred pattern. -/
theorem starLoop_sound (f : Flags) (g : Bool) (r : Re)
    (hstep : ∀ (k : Cont) (s : List Char) (caps : Caps) (out : List Char × Caps),
      r.run f k s caps = some out → ∃ s1 c1, Matches f r s caps s1 c1 ∧ k s1 c1 = some out)
    (k : Cont) (n : Nat) (s : List Char) (caps : Caps) (out : List Char × Caps)
    (h : starLoop g (r.run f) k n s caps = some out) :
    ∃ s1 c1, Matches f (.star g r) s caps s1 c1 ∧ k s1 c1 = some out := by
  induction n generalizing s caps out with
  | zero => exact ⟨s, caps, .starDone, h⟩
  | succ n ih =>
    have hmore : ∀ o, r.run f (fun s1 caps1 =>
        if s1.length < s.length then starLoop g (r.run f) k n s1 caps1 else none) s caps = some o →
        ∃ s1 c1, Matches f (.star g r) s caps s1 c1 ∧ k s1 c1 = some o := by
      intro o ho
      obtain ⟨s1, c1, hm, hk⟩ := hstep _ _ _ _ ho
      by_cases hlt : s1.length < s.length
      · rw [if_pos hlt] at hk
        obtain ⟨s2, c2, hm2, hk2⟩ := ih s1 c1 o hk
        exact ⟨s2, c2, .starMore hm hlt hm2, hk2⟩
      · rw [if_neg hlt] at hk
        cases hk
    unfold starLoop at h
    cases g with
    | true =>
      simp only [if_true] at h
      split at h
      · rename_i o ho
        cases h
        exact hmore _ ho
      · exact ⟨s, caps, .starDone, h⟩
    | false =>
      simp only [Bool.false_eq_true, if_false] at h
      split at h
      · rename_i o ho
        cases h
        exact ⟨s, caps, .starDone, ho⟩
      · exact hmore _ h

/-- Soundness of the matcher: a successful run has matched the pattern and then run
the continuation on what is left. -/
theorem run_sound (f : Flags) (r : Re) :
    ∀ (k : Cont) (s : List Char) (caps : Caps) (out : List Char × Caps),
      r.run f k s caps = some out → ∃ s1 c1, Matches f r s caps s1 c1 ∧ k s1 c1 = some out := by
  induction r with
  | chr c =>
    intro k s caps out h
    cases s with
    | nil => simp [Re.run] at h
    | cons x xs =>
      simp only [Re.run] at h
      by_cases hc : eqChar f x c = true
      · rw [if_pos hc] at h
        exact ⟨xs, caps, .chr hc, h⟩
      · rw [if_neg hc] at h
        cases h
  | any =>
    intro k s caps out h
    cases s with
    | nil => simp [Re.run] at h
    | cons x xs =>
      simp only [Re.run] at h
      by_cases hc : isLineTerminator x = true
      · rw [if_pos hc] at h
        cases h
      · rw [if_neg hc] at h
        exact ⟨xs, caps, .any (by simpa using hc), h⟩
  | set negated items =>
    intro k s caps out h
    cases s with
    | nil => simp [Re.run] at h
    | cons x xs =>
      simp only [Re.run] at h
      by_cases hc : ((items.any (ClassItem.test f x)) != negated) = true
      · rw [if_pos hc] at h
        exact ⟨xs, caps, .set hc, h⟩
      · rw [if_neg hc] at h
        cases h
  | eol =>
    intro k s caps out h
    cases s with
    | nil => exact ⟨[], caps, .eolEnd, by simpa [Re.run] using h⟩
    | cons x xs =>
      simp only [Re.run] at h
      by_cases hc : (f.multiline && isLineTerminator x) = true
      · rw [if_pos hc] at h
        exact ⟨x :: xs, caps, .eolLine hc, h⟩
      · rw [if_neg hc] at h
        cases h
  | empty =>
    intro k s caps out h
    exact ⟨s, caps, .empty, by simpa [Re.run] using h⟩
  | seq a b iha ihb =>
    intro k s caps out h
    simp only [Re.run] at h
    obtain ⟨s1, c1, hm1, hk1⟩ := iha _ _ _ _ h
    obtain ⟨s2, c2, hm2, hk2⟩ := ihb _ _ _ _ hk1
    exact ⟨s2, c2, .seq hm1 hm2, hk2⟩
  | alt a b iha ihb =>
    intro k s caps out h
    simp only [Re.run] at h
    split at h
    · rename_i o ho
      cases h
      obtain ⟨s1, c1, hm1, hk1⟩ := iha _ _ _ _ ho
      exact ⟨s1, c1, .altL hm1, hk1⟩
    · obtain ⟨s1, c1, hm1, hk1⟩ := ihb _ _ _ _ h
      exact ⟨s1, c1, .altR hm1, hk1⟩
  | group i r ih =>
    intro k s caps out h
    simp only [Re.run] at h
    obtain ⟨s1, c1, hm1, hk1⟩ := ih _ _ _ _ h
    exact ⟨s1, _, .group hm1, hk1⟩
  | star g r ih =>
    intro k s caps out h
    simp only [Re.run] at h
    exact starLoop_sound f g r ih k _ s caps out h

/-- A match leaves an end of the input. -/
theorem Matches.suffix {f : Flags} {r : Re} {s s1 : List Char} {c c1 : Caps}
    (h : Matches f r s c s1 c1) : s1 <:+ s := by
  induction h with
  | chr _ => exact List.suffix_cons _ _
  | any _ => exact List.suffix_cons _ _
  | set _ => exact List.suffix_cons _ _
  | eolEnd => exact List.suffix_refl _
  | eolLine _ => exact List.suffix_refl _
  | empty => exact List.suffix_refl _
  | seq _ _ ih1 ih2 => exact ih2.trans ih1
  | altL _ ih => exact ih
  | altR _ ih => exact ih
  | group _ ih => exact ih
  | starDone => exact List.suffix_refl _
  | starMore _ _ _ ih1 ih2 => exact ih2.trans ih1

/-- A match adds captures of its own groups in front of the captures made before. -/
theorem Matches.caps_extend {f : Flags} {r : Re} {s s1 : List Char} {c c1 : Caps}
    (h : Matches f r s c s1 c1) : ∃ ext : Caps, c1 = ext ++ c ∧ ∀ p ∈ ext, p.1 ∈ r.groups := by
  induction h with
  | chr _ => exact ⟨[], rfl, by simp⟩
  | any _ => exact ⟨[], rfl, by simp⟩
  | set _ => exact ⟨[], rfl, by simp⟩
  | eolEnd => exact ⟨[], rfl, by simp⟩
  | eolLine _ => exact ⟨[], rfl, by simp⟩
  | empty => exact ⟨[], rfl, by simp⟩
  | seq _ _ ih1 ih2 =>
    obtain ⟨e1, rfl, h1⟩ := ih1
    obtain ⟨e2, rfl, h2⟩ := ih2
    refine ⟨e2 ++ e1, by simp, ?_⟩
    intro p hp
    simp only [Re.groups, List.mem_append] at hp ⊢
    rcases hp with hp | hp
    · exact Or.inr (h2 p hp)
    · exact Or.inl (h1 p hp)
  | altL _ ih =>
    obtain ⟨e, rfl, h1⟩ := ih
    exact ⟨e, rfl, fun p hp => by simp only [Re.groups, List.mem_append]; exact Or.inl (h1 p hp)⟩
  | altR _ ih =>
    obtain ⟨e, rfl, h1⟩ := ih
    exact ⟨e, rfl, fun p hp => by simp only [Re.groups, List.mem_append]; exact Or.inr (h1 p hp)⟩
  | group _ ih =>
    obtain ⟨e, rfl, h1⟩ := ih
    refine ⟨_ :: e, rfl, ?_⟩
    intro p hp
    simp only [Re.groups, List.mem_cons] at hp ⊢
    rcases hp with rfl | hp
    · exact Or.inl rfl
    · exact Or.inr (h1 p hp)
  | starDone => exact ⟨[], rfl, by simp⟩
  | starMore _ _ _ ih1 ih2 =>
    obtain ⟨e1, rfl, h1⟩ := ih1
    obtain ⟨e2, rfl, h2⟩ := ih2
    refine ⟨e2 ++ e1, by simp, ?_⟩
    intro p hp
    simp only [Re.groups, List.mem_append] at hp ⊢
    rcases hp with hp | hp
    · exact h2 p hp
    · exact h1 p hp

/-- C11 (evaluation at the failing input): the clause `c INT null` is matched with
the nullability sub-match `null`, which is compared with `NULL` case-sensitively,
so the column is not nullable; `c INT` and `c INT NULL` give a nullable column,
`c INT NOT NULL` and `c INT not null` a column that is not nullable. -/
theorem C11_lowercase_null_not_nullable :
    (regex_match Flags.nocase column_pattern "c INT null".toList).map (fun m => m.str 4) =
      some "null" ∧
    (parseColumn "c INT null").nullable = false ∧
    (parseColumn "c INT").nullable = true ∧
    (parseColumn "c INT NULL").nullable = true ∧
    (parseColumn "c INT NOT NULL").nullable = false ∧
    (parseColumn "c INT not null").nullable = false := by
  decide

/-- C12: `isConstraintLine` holds exactly when the upper-cased clause starts with
one of the seven prefixes; a clause whose trimmed text has such a prefix gives no
column, and every other non-empty clause is handed to `parseColumn`.  The clauses
`key_code INT`, `unique_id INT` and `check_in DATE` are classified as constraints
and `parseColumns` produces no column for them. -/
theorem C12_classification_by_prefix :
    (∀ line : String, isConstraintLine line = true ↔
      ∃ p ∈ ["PRIMARY KEY", "FOREIGN KEY", "KEY", "INDEX", "UNIQUE", "CONSTRAINT", "CHECK"],
        p.toList <+: (toUpperStr line).toList) ∧
    (∀ line : String, isConstraintLine (trimSpaces line) = true → columnOfClause line = none) ∧
    (∀ line : String, isConstraintLine (trimSpaces line) = false → trimSpaces line ≠ "" →
      columnOfClause line =
        if (parseColumn (trimSpaces line)).name = "" then none
        else some (parseColumn (trimSpaces line))) ∧
    (["key_code INT", "unique_id INT", "check_in DATE"].map fun line =>
        (isConstraintLine line, parseColumns line, (parseColumn line).name)) =
      [(true, [], "key_code"), (true, [], "unique_id"), (true, [], "check_in")] ∧
    (parseColumns "a INT, key_code INT, b INT").map (fun c => c.name) = ["a", "b"] := by
  refine ⟨?_, ?_, ?_, by decide, by decide⟩
  · intro line
    simp only [isConstraintLine, constraintPrefixes, List.any_eq_true,
      List.isPrefixOf_iff_prefix]
  · intro line h
    simp [columnOfClause, h]
  · intro line h hne
    have he : (trimSpaces line).isEmpty = false := by
      cases hb : (trimSpaces line).isEmpty with
      | false => rfl
      | true => exact absurd ((String.isEmpty_iff _).1 hb) hne
    by_cases hn : (parseColumn (trimSpaces line)).name = ""
    · have hn2 : (parseColumn (trimSpaces line)).name.isEmpty = true :=
        (String.isEmpty_iff _).2 hn
      rw [if_pos hn]
      simp [columnOfClause, h, he, hn2]
    · have hn2 : (parseColumn (trimSpaces line)).name.isEmpty = false := by
        cases hb : (parseColumn (trimSpaces line)).name.isEmpty with
        | false => rfl
        | true => exact absurd ((String.isEmpty_iff _).1 hb) hn
      rw [if_neg hn]
      simp [columnOfClause, h, he, hn2]

/-- C12 (witness): the clause `KEY idx (a)` is a constraint clause and gives no
column; the clause `a INT` is not, and is parsed as the column `a`. -/
theorem C12_classification_by_prefix_witness :
    isConstraintLine (trimSpaces "KEY idx (a)") = true ∧ columnOfClause "KEY idx (a)" = none ∧
    isConstraintLine (trimSpaces "a INT") = false ∧ trimSpaces "a INT" ≠ "" ∧
    columnOfClause "a INT" =
      if (parseColumn (trimSpaces "a INT")).name = "" then none
      else some (parseColumn (trimSpaces "a INT")) :=
  ⟨by decide, C12_classification_by_prefix.2.1 "KEY idx (a)" (by decide), by decide, by decide,
    C12_classification_by_prefix.2.2.1 "a INT" (by decide) (by decide)⟩

/-- A run with the accepting continuation returns what the pattern matched. -/
theorem run_accept (f : Flags) (r : Re) (s rest : List Char) (caps : Caps)
    (h : r.run f (fun s1 caps1 => some (s1, caps1)) s [] = some (rest, caps)) :
    Matches f r s [] rest caps := by
  obtain ⟨s1, c1, hm, hk⟩ := run_sound f r _ _ _ _ h
  cases hk
  exact hm

/-- The text before an end of a string, followed by that end, is the string. -/
theorem take_length_sub_of_suffix {s rest : List Char} (h : rest <:+ s) :
    s.take (s.length - rest.length) ++ rest = s := by
  obtain ⟨t, rfl⟩ := h
  simp

/-- A match found by the search splits the input and is a match of the pattern. -/
theorem searchFrom_spec (f : Flags) (r : Re) (skipped s : List Char) (m : Match)
    (h : searchFrom f r skipped s = some m) :
    m.before ++ m.matched ++ m.after = skipped.reverse ++ s ∧
      Matches f r (m.matched ++ m.after) [] m.after m.caps := by
  induction s generalizing skipped with
  | nil =>
    unfold searchFrom at h
    split at h
    · rename_i rest caps hr
      cases h
      have hm := run_accept f r _ _ _ hr
      have hs := hm.suffix
      have : rest = [] := List.eq_nil_of_suffix_nil hs
      subst this
      exact ⟨by simp, hm⟩
    · cases h
  | cons c cs ih =>
    unfold searchFrom at h
    split at h
    · rename_i rest caps hr
      cases h
      have hm := run_accept f r _ _ _ hr
      have ht := take_length_sub_of_suffix hm.suffix
      refine ⟨by simp only [List.append_assoc]; rw [ht], ?_⟩
      simp only
      rw [ht]
      exact hm
    · have := ih (c :: skipped) h
      simpa using this

/-- The result of `regex_search` splits the input and is a match of the pattern. -/
theorem regex_search_spec (f : Flags) (r : Re) (s : List Char) (m : Match)
    (h : regex_search f r s = some m) :
    m.before ++ m.matched ++ m.after = s ∧
      Matches f r (m.matched ++ m.after) [] m.after m.caps := by
  have := searchFrom_spec f r [] s m h
  simpa using this

/-- The input after the last match does not depend on what came before the first. -/
theorem lastAfter_cons (s : List Char) (m : Match) (ms : List Match) :
    lastAfter s (m :: ms) = lastAfter m.after ms := by
  induction ms generalizing s m with
  | nil => rfl
  | cons m2 ms ih =>
    show lastAfter s (m2 :: ms) = lastAfter m.after (m2 :: ms)
    rw [ih s m2, ih m.after m2]

/-- Removing the matches leaves characters of the input, in order. -/
theorem regexIter_delete_sublist (f : Flags) (r : Re) (n : Nat) (s : List Char) :
    List.Sublist (((regexIter f r n s).map fun m => m.before ++ []).flatten ++
      lastAfter s (regexIter f r n s)) s := by
  induction n generalizing s with
  | zero => simp [regexIter, lastAfter]
  | succ n ih =>
    unfold regexIter
    cases hs : regex_search f r s with
    | none => simp [lastAfter]
    | some m =>
      obtain ⟨hsplit, _⟩ := regex_search_spec f r s m hs
      have hba : List.Sublist (m.before ++ m.after) s := by
        rw [← hsplit, List.append_assoc]
        exact List.Sublist.append (List.Sublist.refl _) (List.sublist_append_right _ _)
      by_cases he : m.matched.isEmpty = true
      · simp only [he, if_true, List.map_cons, List.map_nil, List.flatten_cons,
          List.flatten_nil, List.append_nil, lastAfter]
        exact hba
      · simp only [he, Bool.false_eq_true, if_false, List.map_cons, List.flatten_cons,
          List.append_nil, lastAfter_cons, List.append_assoc]
        refine List.Sublist.trans ?_ hba
        have := ih m.after
        simp only [List.append_nil] at this
        exact List.Sublist.append (List.Sublist.refl _) this

/-- Replacement by the empty string leaves characters of the input, in order. -/
theorem regex_replace_delete_sublist (f : Flags) (r : Re) (s : List Char) :
    List.Sublist (regex_replace f r [] s) s :=
  regexIter_delete_sublist f r _ s

/-- Trimming removes characters at the left, then at the right. -/
theorem trimChars_eq (s : List Char) :
    trimChars s = (s.dropWhile isTrimChar).rdropWhile isTrimChar := rfl

/-- Trimming leaves characters of the input, in order. -/
theorem trimChars_sublist (s : List Char) : List.Sublist (trimChars s) s := by
  rw [trimChars_eq]
  exact (List.rdropWhile_prefix _ _).sublist.trans (List.dropWhile_sublist _)

/-- A trimmed text does not end with a trimmed character. -/
theorem trimChars_getLast (s : List Char) (c : Char) (h : (trimChars s).getLast? = some c) :
    isTrimChar c = false := by
  rw [trimChars_eq] at h
  have hne : (s.dropWhile isTrimChar).rdropWhile isTrimChar ≠ [] := by
    intro h0; rw [h0] at h; cases h
  have := List.rdropWhile_last_not isTrimChar (s.dropWhile isTrimChar) hne
  rw [List.getLast?_eq_getLast _ hne] at h
  cases h
  simpa using this

/-- A trimmed text does not start with a trimmed character. -/
theorem trimChars_head (s : List Char) (c : Char) (h : (trimChars s).head? = some c) :
    isTrimChar c = false := by
  rw [trimChars_eq] at h
  obtain ⟨t, ht⟩ := List.rdropWhile_prefix isTrimChar (s.dropWhile isTrimChar)
  have hhead : (s.dropWhile isTrimChar).head? = some c := by
    rw [← ht]
    cases hl : (s.dropWhile isTrimChar).rdropWhile isTrimChar with
    | nil => rw [hl] at h; cases h
    | cons a l => rw [hl] at h; simpa using h
  have := List.head?_dropWhile_not isTrimChar s
  rw [hhead] at this
  simpa using this


/-- The characters of the base type. -/
theorem extractBaseType_toList (s : String) :
    (extractBaseType s).toList =
      trimChars (regex_replace Flags.default unsigned_pattern []
        (s.toList.takeWhile (fun c => c != '('))) := rfl

/-- C14 (counterexample): `extractBaseType` returns the text made of a vertical
tab, `INT` and a form feed unchanged, so the result starts and ends with white
space. -/
theorem C14_vertical_tab_kept :
    extractBaseType "\x0bINT\x0c" = "\x0bINT\x0c" ∧
    (extractBaseType "\x0bINT\x0c").toList.head?.map isspace = some true ∧
    (extractBaseType "\x0bINT\x0c").toList.getLast?.map isspace = some true := by
  decide

/-- C14 (amended): for every key `K` of the type table and every string `p`,
`extractBaseType` sends `K(p)`, `K UNSIGNED` and `K(p) UNSIGNED` to `K`; for every
input the result contains no `(` and neither starts nor ends with one of the
characters removed by `trim` (space, tab, newline, carriage return). -/
theorem C14_extractBaseType :
    (∀ K ∈ SQL_TO_JAVA_TYPE_MAP.map Prod.fst, ∀ p : String,
      extractBaseType (K ++ "(" ++ p ++ ")") = K ∧
      extractBaseType (K ++ " UNSIGNED") = K ∧
      extractBaseType (K ++ "(" ++ p ++ ") UNSIGNED") = K) ∧
    extractBaseType "DECIMAL(10,2)" = "DECIMAL" ∧
    extractBaseType "INT(11) UNSIGNED" = "INT" ∧
    (∀ s : String, '(' ∉ (extractBaseType s).toList ∧
      ∀ c, ((extractBaseType s).toList.head? = some c ∨
          (extractBaseType s).toList.getLast? = some c) → isTrimChar c = false) := by
  refine ⟨?_, by decide, by decide, ?_⟩
  · have hkeys : ∀ K ∈ SQL_TO_JAVA_TYPE_MAP.map Prod.fst,
        (∀ c ∈ K.toList, (c != '(') = true) ∧ extractBaseType K = K ∧
          extractBaseType (K ++ " UNSIGNED") = K := by decide
    intro K hK p
    obtain ⟨hparen, hself, huns⟩ := hkeys K hK
    refine ⟨?_, huns, ?_⟩
    · rw [String.append_assoc, extractBaseType_paren K _ hparen, hself]
    · rw [String.append_assoc, extractBaseType_paren K _ hparen, hself]
  · intro s
    constructor
    · intro hmem
      rw [extractBaseType_toList] at hmem
      have h1 := (trimChars_sublist _).subset hmem
      have h2 := (regex_replace_delete_sublist _ _ _).subset h1
      have h3 := List.mem_takeWhile_imp h2
      simp at h3
    · intro c hc
      rw [extractBaseType_toList] at hc
      rcases hc with hc | hc
      · exact trimChars_head _ c hc
      · exact trimChars_getLast _ c hc

/-- C14 (witness): the key `DECIMAL` with the text `10,2`. -/
theorem C14_extractBaseType_witness :
    "DECIMAL" ∈ SQL_TO_JAVA_TYPE_MAP.map Prod.fst ∧
    (extractBaseType ("DECIMAL" ++ "(" ++ "10,2" ++ ")") = "DECIMAL" ∧
      extractBaseType ("DECIMAL" ++ " UNSIGNED") = "DECIMAL" ∧
      extractBaseType ("DECIMAL" ++ "(" ++ "10,2" ++ ") UNSIGNED") = "DECIMAL") :=
  ⟨by decide, C14_extractBaseType.1 "DECIMAL" (by decide) "10,2"⟩

/-- The scan moves a whole clause into the clause being read. -/
theorem splitScan_clause (c rest cur : List Char) (depth : Nat)
    (h : isClauseFrom c depth = true) :
    splitScan (c ++ rest) cur (depth : Int) = splitScan rest (cur ++ c) 0 := by
  induction c generalizing cur depth with
  | nil =>
    have hd : depth = 0 := by simpa [isClauseFrom] using h
    subst hd
    simp
  | cons x xs ih =>
    have hcur : cur ++ [x] ++ xs = cur ++ x :: xs := by simp
    unfold isClauseFrom at h
    rw [List.cons_append, splitScan]
    by_cases h1 : (x == '(') = true
    · rw [if_pos h1] at h
      rw [if_pos h1, show ((depth : Int) + 1) = ((depth + 1 : Nat) : Int) by simp,
        ih (cur ++ [x]) (depth + 1) h, hcur]
    · rw [if_neg h1] at h
      rw [if_neg h1]
      by_cases h2 : (x == ')') = true
      · rw [if_pos h2] at h
        simp only [Bool.and_eq_true, decide_eq_true_eq] at h
        rw [if_pos h2, show ((depth : Int) - 1) = ((depth - 1 : Nat) : Int) by omega,
          ih (cur ++ [x]) (depth - 1) h.2, hcur]
      · rw [if_neg h2] at h
        rw [if_neg h2]
        by_cases h3 : (x == ',') = true
        · rw [if_pos h3] at h
          simp only [Bool.and_eq_true, decide_eq_true_eq] at h
          have hne : ¬ ((x == ',') && ((depth : Int) == 0)) = true := by
            have : (depth : Int) ≠ 0 := by omega
            simp [this]
          rw [if_neg hne, ih (cur ++ [x]) depth h.2, hcur]
        · rw [if_neg h3] at h
          have hne : ¬ ((x == ',') && ((depth : Int) == 0)) = true := by
            simp [h3]
          rw [if_neg hne, ih (cur ++ [x]) depth h, hcur]

/-- One step of the loop of `String.intercalate`. -/
theorem intercalate_go_cons (sep acc b : String) (l : List String) :
    String.intercalate.go acc sep (b :: l) = acc ++ sep ++ String.intercalate.go b sep l := by
  induction l generalizing acc b with
  | nil => simp [String.intercalate.go]
  | cons c l ih =>
    rw [String.intercalate.go, ih, ih b c]
    simp [String.append_assoc]

/-- Joining at least two strings. -/
theorem intercalate_cons_cons (sep a b : String) (l : List String) :
    sep.intercalate (a :: b :: l) = a ++ sep ++ sep.intercalate (b :: l) := by
  simp only [String.intercalate]
  exact intercalate_go_cons sep a b l

/-- Joining one string. -/
theorem intercalate_singleton (sep a : String) : sep.intercalate [a] = a := by
  simp [String.intercalate, String.intercalate.go]

/-- The splitter returns the trimmed clauses of a comma-joined list of clauses. -/
theorem splitScan_intercalate (cs : List String) (hne : cs ≠ [])
    (hclause : ∀ c ∈ cs, isClauseFrom c.toList 0 = true)
    (hlast : ∀ c, cs.getLast? = some c → c ≠ "") :
    splitByCommaIgnoringParentheses (",".intercalate cs) = cs.map trim := by
  unfold splitByCommaIgnoringParentheses
  induction cs with
  | nil => exact absurd rfl hne
  | cons c rest ih =>
    cases rest with
    | nil =>
      rw [intercalate_singleton]
      have h := splitScan_clause c.toList [] [] 0 (hclause c (List.mem_cons_self _ _))
      simp only [List.append_nil, List.nil_append, Nat.cast_zero] at h
      rw [h]
      have hc : c ≠ "" := hlast c rfl
      have hc2 : c.toList.isEmpty = false := by
        cases hd : c.toList with
        | nil => exact absurd (String.ext hd) hc
        | cons a l => rfl
      simp only [splitScan, hc2, Bool.false_eq_true, if_false, List.map, trim]
    | cons c2 rest2 =>
      rw [intercalate_cons_cons]
      have hl : (c ++ "," ++ ",".intercalate (c2 :: rest2)).toList =
          c.toList ++ ',' :: (",".intercalate (c2 :: rest2)).toList := by
        simp [String.toList, String.data_append]
      have h := splitScan_clause c.toList (',' :: (",".intercalate (c2 :: rest2)).toList) [] 0
        (hclause c (List.mem_cons_self _ _))
      simp only [List.nil_append, Nat.cast_zero] at h
      rw [hl, h]
      have ih2 := ih (by simp) (fun x hx => hclause x (List.mem_cons_of_mem _ hx))
        (fun x hx => hlast x (by simpa [List.getLast?_cons_cons] using hx))
      simp only [splitScan]
      simp only [List.map_cons] at ih2 ⊢
      rw [← ih2]
      simp [trim]

/-- Every clause returned by the scan is a trimmed text. -/
theorem splitScan_trimmed (s cur : List Char) (n : Int) :
    ∀ x ∈ splitScan s cur n, ∃ t : List Char, x = String.mk (trimChars t) := by
  induction s generalizing cur n with
  | nil =>
    intro x hx
    unfold splitScan at hx
    by_cases he : cur.isEmpty = true
    · simp [he] at hx
    · simp only [he, Bool.false_eq_true, if_false, List.mem_singleton] at hx
      exact ⟨cur, hx⟩
  | cons c cs ih =>
    intro x hx
    unfold splitScan at hx
    split at hx
    · exact ih _ _ x hx
    · split at hx
      · exact ih _ _ x hx
      · split at hx
        · rcases List.mem_cons.1 hx with rfl | hx
          · exact ⟨cur, rfl⟩
          · exact ih _ _ x hx
        · exact ih _ _ x hx

/-- Captures of other groups do not hide the capture of a group. -/
theorem lookup_append_of_not_mem (i : Nat) (ext c : Caps) (h : ∀ p ∈ ext, p.1 ≠ i) :
    (ext ++ c).lookup i = c.lookup i := by
  induction ext with
  | nil => rfl
  | cons p ext ih =>
    have hp : (i == p.1) = false := by
      have := h p (List.mem_cons_self _ _)
      simpa using fun h' => this h'.symm
    obtain ⟨a, b⟩ := p
    simp only [List.cons_append, List.lookup, hp]
    exact ih (fun q hq => h q (List.mem_cons_of_mem _ hq))

/-- A group around a repeated character class captures a non-empty text. -/
theorem Matches.group_plus_set {f : Flags} {i : Nat} {g negated : Bool}
    {items : List ClassItem} {s s1 : List Char} {c c1 : Caps}
    (h : Matches f (.group i (Re.plus g (.set negated items))) s c s1 c1) :
    ∃ t : List Char, t ≠ [] ∧ c1 = (i, t) :: c := by
  cases h with
  | group hm =>
    unfold Re.plus at hm
    cases hm with
    | seq h1 h2 =>
      cases h1 with
      | set hx =>
        obtain ⟨ext, rfl, hext⟩ := h2.caps_extend
        have hnil : ext = [] := by
          cases ext with
          | nil => rfl
          | cons p l => exact absurd (hext p (List.mem_cons_self _ _)) (by simp [Re.groups])
        subst hnil
        have hlen := h2.suffix.length_le
        refine ⟨_, ?_, rfl⟩
        intro h0
        have := congrArg List.length h0
        simp only [List.length_take, List.length_cons, List.length_nil] at this
        omega

/-- A match of the column pattern has captured a non-empty name, in group 1 or,
when group 1 took no part, in group 2. -/
theorem column_caps (s : List Char) (m : Match)
    (h : regex_match Flags.nocase column_pattern s = some m) :
    ∃ t : List Char, t ≠ [] ∧
      (m.caps.lookup 1 = some t ∨ (m.caps.lookup 1 = none ∧ m.caps.lookup 2 = some t)) := by
  unfold regex_match at h
  split at h
  · rename_i rest caps hr
    cases h
    obtain ⟨s1, c1, hm, hk⟩ := run_sound _ _ _ _ _ _ hr
    have hcaps : c1 = caps := by
      by_cases he : s1.isEmpty = true
      · simp only [he, if_true, Option.some.injEq, Prod.mk.injEq] at hk
        exact hk.2
      · simp [he] at hk
    subst hcaps
    show ∃ t : List Char, t ≠ [] ∧
      (c1.lookup 1 = some t ∨ (c1.lookup 1 = none ∧ c1.lookup 2 = some t))
    clear hr hk
    have hpat : column_pattern = .seq
        (.alt (Re.cat [.chr backquote, .group 1 (Re.plus true (.set true [.chr backquote])),
            .chr backquote])
          (.group 2 (Re.plus true (.set false [.word, .chr '_']))))
        (Re.cat [
          Re.plus true Re.ws,
          .group 3 (Re.plus false (.set false [.word, .chr '(', .chr ')', .space, .chr ','])),
          .star true Re.ws,
          Re.opt (.group 4 (.alt (Re.cat [Re.lit "NOT", Re.plus true Re.ws, Re.lit "NULL"])
            (Re.lit "NULL"))),
          .star true Re.ws,
          Re.opt (.group 5 (.alt (Re.lit "AUTO_INCREMENT") (Re.lit "IDENTITY"))),
          .star true Re.ws,
          Re.opt (.group 6 (Re.cat [Re.lit "PRIMARY", Re.plus true Re.ws, Re.lit "KEY"])),
          .star true Re.ws,
          Re.opt (Re.cat [Re.lit "DEFAULT", Re.plus true Re.ws,
            .group 7 (Re.plus true (.set true [.chr ',', .space]))]),
          .star true Re.ws,
          Re.opt (Re.cat [Re.lit "COMMENT", Re.plus true Re.ws,
            .set false [.chr quote1, .chr '"'],
            .group 8 (.star false (.set true [.chr quote1, .chr '"'])),
            .set false [.chr quote1, .chr '"']])]) := rfl
    rw [hpat] at hm
    clear hpat
    cases hm with
    | seq hname hrest =>
      obtain ⟨ext, rfl, hext⟩ := hrest.caps_extend
      have hgroups : ∀ p ∈ ext, p.1 ≠ 1 ∧ p.1 ≠ 2 := by
        intro p hp
        have := hext p hp
        revert this
        generalize p.1 = n
        intro hn
        simp [Re.cat, Re.groups, Re.plus, Re.opt, Re.lit, Re.ws] at hn
        omega
      have hl1 : ∀ c : Caps, (ext ++ c).lookup 1 = c.lookup 1 :=
        fun c => lookup_append_of_not_mem 1 ext c (fun p hp => (hgroups p hp).1)
      have hl2 : ∀ c : Caps, (ext ++ c).lookup 2 = c.lookup 2 :=
        fun c => lookup_append_of_not_mem 2 ext c (fun p hp => (hgroups p hp).2)
      clear hrest hext hgroups
      cases hname with
      | altL hq =>
        simp only [Re.cat] at hq
        cases hq with
        | seq hq1 hq2 =>
          cases hq1 with
          | chr _ =>
            cases hq2 with
            | seq hq3 hq4 =>
              obtain ⟨t, ht, hc⟩ := hq3.group_plus_set
              subst hc
              cases hq4 with
              | chr _ =>
                exact ⟨t, ht, Or.inl (by simp [hl1, List.lookup])⟩
      | altR hq =>
        obtain ⟨t, ht, hc⟩ := hq.group_plus_set
        subst hc
        exact ⟨t, ht, Or.inr ⟨by simp [hl1, List.lookup], by simp [hl2, List.lookup]⟩⟩
  · cases h

/-- A string with characters is not the empty string. -/
theorem mk_ne_empty (t : List Char) (ht : t ≠ []) : String.mk t ≠ "" :=
  fun h => ht (congrArg String.data h)

/-- The name read from a match of the column pattern is not empty. -/
theorem column_name_nonempty (s : List Char) (m : Match)
    (h : regex_match Flags.nocase column_pattern s = some m) :
    (if (m.str 1).isEmpty then m.str 2 else m.str 1) ≠ "" := by
  obtain ⟨t, ht, hc⟩ := column_caps s m h
  rcases hc with h1 | ⟨h1, h2⟩
  · have hstr : m.str 1 = String.mk t := by simp [Match.str, h1]
    have hne : (m.str 1).isEmpty = false := by
      cases hb : (m.str 1).isEmpty with
      | false => rfl
      | true => exact absurd ((String.isEmpty_iff _).1 hb) (hstr ▸ mk_ne_empty t ht)
    rw [hne]
    simp only [Bool.false_eq_true, if_false]
    rw [hstr]
    exact mk_ne_empty t ht
  · have hstr1 : m.str 1 = "" := by simp [Match.str, h1]
    have hstr2 : m.str 2 = String.mk t := by simp [Match.str, h2]
    rw [hstr1, hstr2]
    have he : ("" : String).isEmpty = true := rfl
    simp only [he, if_true]
    exact mk_ne_empty t ht

/-- C13 (counterexample): the single clause made of a vertical tab, `a INT` and a
form feed has balanced parentheses and no comma; the splitter returns it
unchanged, so the returned clause starts and ends with white space. -/
theorem C13_vertical_tab_kept :
    ["\x0ba INT\x0c"] ≠ [] ∧
    (∀ c ∈ ["\x0ba INT\x0c"], isClauseFrom c.toList 0 = true) ∧
    (∀ c, ["\x0ba INT\x0c"].getLast? = some c → c ≠ "") ∧
    ",".intercalate ["\x0ba INT\x0c"] = "\x0ba INT\x0c" ∧
    splitByCommaIgnoringParentheses (",".intercalate ["\x0ba INT\x0c"]) =
      ["\x0ba INT\x0c"] ∧
    (splitByCommaIgnoringParentheses (",".intercalate ["\x0ba INT\x0c"])).map
        (fun clause => (clause.toList.head?.map isspace, clause.toList.getLast?.map isspace)) =
      [(some true, some true)] := by
  decide

/-- C13 (amended): for every non-empty list of clauses, each with balanced
parentheses and no comma at depth zero, the last one not empty, the splitter
applied to the clauses joined by commas returns the trimmed clauses, in order;
and for every input, no returned clause starts or ends with one of the
characters removed by `trim` (space, tab, newline, carriage return). -/
theorem C13_splitter_round_trip :
    (∀ cs : List String, cs ≠ [] → (∀ c ∈ cs, isClauseFrom c.toList 0 = true) →
      (∀ c, cs.getLast? = some c → c ≠ "") →
      splitByCommaIgnoringParentheses (",".intercalate cs) = cs.map trim) ∧
    (∀ input : String, ∀ clause ∈ splitByCommaIgnoringParentheses input, ∀ c : Char,
      (clause.toList.head? = some c ∨ clause.toList.getLast? = some c) →
      isTrimChar c = false) := by
  refine ⟨splitScan_intercalate, ?_⟩
  intro input clause hcl c hc
  obtain ⟨t, rfl⟩ := splitScan_trimmed _ _ _ clause hcl
  rcases hc with hc | hc
  · exact trimChars_head t c hc
  · exact trimChars_getLast t c hc

/-- C13 (witness): three clauses, with commas inside parentheses and blanks around. -/
theorem C13_splitter_round_trip_witness :
    ["a INT", " b DECIMAL(10,2) ", " PRIMARY KEY (a, b)"] ≠ [] ∧
    (∀ c ∈ ["a INT", " b DECIMAL(10,2) ", " PRIMARY KEY (a, b)"],
      isClauseFrom c.toList 0 = true) ∧
    (∀ c, ["a INT", " b DECIMAL(10,2) ", " PRIMARY KEY (a, b)"].getLast? = some c → c ≠ "") ∧
    ",".intercalate ["a INT", " b DECIMAL(10,2) ", " PRIMARY KEY (a, b)"] =
      "a INT, b DECIMAL(10,2) , PRIMARY KEY (a, b)" ∧
    ["a INT", " b DECIMAL(10,2) ", " PRIMARY KEY (a, b)"].map trim =
      ["a INT", "b DECIMAL(10,2)", "PRIMARY KEY (a, b)"] ∧
    splitByCommaIgnoringParentheses
        (",".intercalate ["a INT", " b DECIMAL(10,2) ", " PRIMARY KEY (a, b)"]) =
      ["a INT", " b DECIMAL(10,2) ", " PRIMARY KEY (a, b)"].map trim :=
  ⟨by decide, by decide, by decide, by decide, by decide,
    C13_splitter_round_trip.1 ["a INT", " b DECIMAL(10,2) ", " PRIMARY KEY (a, b)"]
      (by decide) (by decide) (by decide)⟩

/-- A loop that keeps some elements and transforms them is a filter followed by a map. -/
theorem filterMap_eq_map_filter {α β : Type} (f : α → Option β) (p : α → Bool) (g : α → β)
    (h : ∀ x, f x = if p x then some (g x) else none) (l : List α) :
    l.filterMap f = (l.filter p).map g := by
  induction l with
  | nil => rfl
  | cons a l ih =>
    by_cases hp : p a = true
    · simp [List.filterMap_cons, List.filter_cons, h a, hp, ih]
    · simp [List.filterMap_cons, List.filter_cons, h a, hp, ih]

/-- The name of the parsed column is empty exactly when the clause does not match. -/
theorem parseColumn_name_isEmpty (clause : String) :
    (parseColumn clause).name.isEmpty = !matchesColumnShape clause := by
  unfold parseColumn matchesColumnShape
  cases hm : regex_match Flags.nocase column_pattern clause.toList with
  | none => rfl
  | some m =>
    have := column_name_nonempty _ m hm
    simp only [Option.isSome_some, Bool.not_true]
    cases hb : (columnOfMatch m).name.isEmpty with
    | false => rfl
    | true => exact absurd ((String.isEmpty_iff _).1 hb) this

/-- The column appended for a clause, by the three tests of the loop. -/
theorem columnOfClause_eq (clause : String) :
    columnOfClause clause =
      if (!(trimSpaces clause).isEmpty && !isConstraintLine (trimSpaces clause) &&
          matchesColumnShape (trimSpaces clause)) = true
      then some (parseColumn (trimSpaces clause)) else none := by
  unfold columnOfClause
  simp only [parseColumn_name_isEmpty]
  cases (trimSpaces clause).isEmpty <;> cases isConstraintLine (trimSpaces clause) <;>
    cases matchesColumnShape (trimSpaces clause) <;> simp

/-- The last element of a list followed by a non-empty list. -/
theorem getLast?_append_cons_ne (l1 l2 : List String) (h : l2 ≠ []) :
    (l1 ++ l2).getLast? = l2.getLast? := by
  cases l2 with
  | nil => exact absurd rfl h
  | cons a l =>
    rw [List.getLast?_append, List.getLast?_eq_getLast _ h]
    rfl

/-- C15: for every table body `parseColumns` returns, in clause order, the columns
of the top-level clauses that are not empty, are not constraint clauses and match
the column shape; a clause that does not match, inserted before a clause of a
body, leaves the result unchanged; and no returned column has an empty name. -/
theorem C15_parseColumns_local_recovery :
    (∀ table_definition : String,
      parseColumns table_definition =
        ((splitByCommaIgnoringParentheses table_definition).filter fun clause =>
            !(trimSpaces clause).isEmpty && !isConstraintLine (trimSpaces clause) &&
              matchesColumnShape (trimSpaces clause)).map
          fun clause => parseColumn (trimSpaces clause)) ∧
    (∀ (before after : List String) (bad : String),
      (∀ c ∈ before ++ bad :: after, isClauseFrom c.toList 0 = true) →
      after ≠ [] → (∀ c, after.getLast? = some c → c ≠ "") →
      matchesColumnShape (trimSpaces (trim bad)) = false →
      parseColumns (",".intercalate (before ++ bad :: after)) =
        parseColumns (",".intercalate (before ++ after))) ∧
    (∀ table_definition : String, ∀ column ∈ parseColumns table_definition,
      column.name ≠ "") := by
  refine ⟨?_, ?_, ?_⟩
  · intro table_definition
    exact filterMap_eq_map_filter _ _ _ columnOfClause_eq _
  · intro before after bad hcl hne hlast hbad
    have h1 : splitByCommaIgnoringParentheses (",".intercalate (before ++ bad :: after)) =
        (before ++ bad :: after).map trim :=
      splitScan_intercalate _ (by simp) hcl
        (by
          intro c hc
          rw [getLast?_append_cons_ne before (bad :: after) (by simp)] at hc
          obtain ⟨a, l, rfl⟩ := List.exists_cons_of_ne_nil hne
          rw [List.getLast?_cons_cons] at hc
          exact hlast c hc)
    have h2 : splitByCommaIgnoringParentheses (",".intercalate (before ++ after)) =
        (before ++ after).map trim :=
      splitScan_intercalate _ (by simp [hne])
        (by
          intro c hc
          apply hcl c
          simp only [List.mem_append, List.mem_cons] at hc ⊢
          rcases hc with hc | hc
          · exact Or.inl hc
          · exact Or.inr (Or.inr hc))
        (by
          intro c hc
          rw [getLast?_append_cons_ne before after hne] at hc
          exact hlast c hc)
    have hnone : columnOfClause (trim bad) = none := by
      rw [columnOfClause_eq, hbad]
      simp
    unfold parseColumns
    rw [h1, h2]
    simp [List.filterMap_append, hnone]
  · intro table_definition column hc
    unfold parseColumns at hc
    rw [List.mem_filterMap] at hc
    obtain ⟨clause, _, hcol⟩ := hc
    rw [columnOfClause_eq] at hcol
    split at hcol
    · rename_i hp
      cases hcol
      simp only [Bool.and_eq_true] at hp
      have := parseColumn_name_isEmpty (trimSpaces clause)
      rw [hp.2] at this
      intro h0
      rw [h0] at this
      cases this
    · cases hcol

/-- C15 (witness): the clause `b` has no type and does not match the column shape;
with or without it between `a INT` and `c INT` the columns are `a` and `c`. -/
theorem C15_parseColumns_local_recovery_witness :
    (∀ c ∈ ["a INT"] ++ "b" :: [" c INT"], isClauseFrom c.toList 0 = true) ∧
    [" c INT"] ≠ [] ∧ (∀ c, [" c INT"].getLast? = some c → c ≠ "") ∧
    matchesColumnShape (trimSpaces (trim "b")) = false ∧
    (parseColumns "a INT,b, c INT").map (fun c => c.name) = ["a", "c"] ∧
    parseColumns (",".intercalate (["a INT"] ++ "b" :: [" c INT"])) =
      parseColumns (",".intercalate (["a INT"] ++ [" c INT"])) :=
  ⟨by decide, by decide, by decide, by decide, by decide,
    C15_parseColumns_local_recovery.2.1 ["a INT"] [" c INT"] "b"
      (by decide) (by decide) (by decide) (by decide)⟩

/-- A filter that keeps an element is not empty. -/
theorem isEmpty_filter_eq_false {α : Type} (p : α → Bool) (l : List α)
    (h : ∃ c ∈ l, p c = true) : (l.filter p).isEmpty = false := by
  obtain ⟨c, hc, hp⟩ := h
  cases hf : l.filter p with
  | nil =>
    have : c ∈ l.filter p := List.mem_filter.2 ⟨hc, hp⟩
    rw [hf] at this
    cases this
  | cons a t => rfl

/-- A filter that keeps no element is empty. -/
theorem isEmpty_filter_eq_true {α : Type} (p : α → Bool) (l : List α)
    (h : ¬ ∃ c ∈ l, p c = true) : (l.filter p).isEmpty = true := by
  cases hf : l.filter p with
  | nil => rfl
  | cons a t =>
    have : a ∈ l.filter p := by rw [hf]; exact List.mem_cons_self _ _
    exact absurd ⟨a, (List.mem_filter.1 this).1, (List.mem_filter.1 this).2⟩ h

/-- C16: `generateConstructors` renders the no-argument constructor, followed by a
second constructor exactly when some column is not nullable and not
auto-incrementing; its parameters are the columns with `nullable = false` and
`auto_increment = false`, in column order, each as mapped type and field name,
and its body assigns these fields. -/
theorem C16_required_arguments_constructor :
    (∀ table : TableInfo,
      generateConstructors table =
        "    /**\n     * Construtor vazio\n     */\n    public " ++ table.class_name ++
          "() \x7b\n    \x7d\n\n" ++
        (if ∃ c ∈ table.columns, (!c.nullable && !c.auto_increment) = true then
          "    /**\n     * Construtor com campos obrigatórios\n     */\n    public " ++
            table.class_name ++ "(" ++
            ", ".intercalate
              ((table.columns.filter fun c => !c.nullable && !c.auto_increment).map
                fun c => c.java_type ++ " " ++ c.field_name) ++
            ") \x7b\n" ++
            appendAll
              ((table.columns.filter fun c => !c.nullable && !c.auto_increment).map
                fun c => "        this." ++ c.field_name ++ " = " ++ c.field_name ++ ";\n") ++
            "    \x7d\n\n"
         else "")) ∧
    generateConstructors ordersTable =
      "    /**\n     * Construtor vazio\n     */\n    public Orders() \x7b\n    \x7d\n\n" ++
      "    /**\n     * Construtor com campos obrigatórios\n     */\n" ++
      "    public Orders(Integer qty, String refCode) \x7b\n" ++
      "        this.qty = qty;\n        this.refCode = refCode;\n    \x7d\n\n" ∧
    generateConstructors notesTable =
      "    /**\n     * Construtor vazio\n     */\n    public Notes() \x7b\n    \x7d\n\n" := by
  refine ⟨?_, by decide, by decide⟩
  intro table
  unfold generateConstructors requiredColumns
  by_cases h : ∃ c ∈ table.columns, (!c.nullable && !c.auto_increment) = true
  · rw [if_pos h]
    simp only [isEmpty_filter_eq_false _ _ h, Bool.not_false, if_true]
    simp only [String.append_assoc]
    rfl
  · rw [if_neg h]
    simp only [isEmpty_filter_eq_true _ _ h, Bool.not_true, Bool.false_eq_true, if_false]
    simp only [String.append_assoc]
    rfl

/-- A text that starts with a non-empty text is not empty. -/
theorem append_ne_empty (a b : String) (h : a ≠ "") : a ++ b ≠ "" := by
  intro h0
  have h1 := congrArg String.data h0
  rw [String.data_append] at h1
  have h2 : a.data = [] := (List.append_eq_nil.1 h1).1
  exact h (String.ext h2)

/-- C17: `generateEqualsHashCode` renders the empty text exactly when no column has
`primary_key = true`; otherwise `equals` compares and `hashCode` hashes the
field names of the columns with `primary_key = true`, in column order, and no
other field. -/
theorem C17_equals_hashCode_contract :
    (∀ table : TableInfo,
      generateEqualsHashCode table = "" ↔ ∀ c ∈ table.columns, c.primary_key = false) ∧
    (∀ table : TableInfo, (∃ c ∈ table.columns, c.primary_key = true) →
      generateEqualsHashCode table =
        "    @Override\n    public boolean equals(Object o) \x7b\n" ++
        "        if (this == o) return true;\n" ++
        "        if (o == null || getClass() != o.getClass()) return false;\n" ++
        "        " ++ table.class_name ++ " that = (" ++ table.class_name ++ ") o;\n" ++
        "        return " ++
        " && ".intercalate
          ((table.columns.filter fun c => c.primary_key).map fun c =>
            "Objects.equals(" ++ c.field_name ++ ", that." ++ c.field_name ++ ")") ++
        ";\n    \x7d\n\n" ++
        "    @Override\n    public int hashCode() \x7b\n" ++
        "        return Objects.hash(" ++
        ", ".intercalate ((table.columns.filter fun c => c.primary_key).map fun c => c.field_name) ++
        ");\n    \x7d\n\n") ∧
    generateEqualsHashCode ordersTable =
      "    @Override\n    public boolean equals(Object o) \x7b\n" ++
      "        if (this == o) return true;\n" ++
      "        if (o == null || getClass() != o.getClass()) return false;\n" ++
      "        Orders that = (Orders) o;\n" ++
      "        return Objects.equals(id, that.id) && Objects.equals(refCode, that.refCode);\n" ++
      "    \x7d\n\n" ++
      "    @Override\n    public int hashCode() \x7b\n" ++
      "        return Objects.hash(id, refCode);\n    \x7d\n\n" ∧
    generateEqualsHashCode notesTable = "" := by
  have hmain : ∀ table : TableInfo, (∃ c ∈ table.columns, c.primary_key = true) →
      generateEqualsHashCode table =
        "    @Override\n    public boolean equals(Object o) \x7b\n" ++
        "        if (this == o) return true;\n" ++
        "        if (o == null || getClass() != o.getClass()) return false;\n" ++
        "        " ++ table.class_name ++ " that = (" ++ table.class_name ++ ") o;\n" ++
        "        return " ++
        " && ".intercalate
          ((table.columns.filter fun c => c.primary_key).map fun c =>
            "Objects.equals(" ++ c.field_name ++ ", that." ++ c.field_name ++ ")") ++
        ";\n    \x7d\n\n" ++
        "    @Override\n    public int hashCode() \x7b\n" ++
        "        return Objects.hash(" ++
        ", ".intercalate ((table.columns.filter fun c => c.primary_key).map fun c => c.field_name) ++
        ");\n    \x7d\n\n" := by
    intro table h
    unfold generateEqualsHashCode pkColumns
    simp only [isEmpty_filter_eq_false _ _ h, Bool.not_false, if_true]
    simp only [String.append_assoc]
    rfl
  refine ⟨?_, hmain, by decide, by decide⟩
  intro table
  constructor
  · intro h c hc
    by_contra hpk
    have hex : ∃ c ∈ table.columns, c.primary_key = true :=
      ⟨c, hc, by simpa using hpk⟩
    rw [hmain table hex] at h
    simp only [String.append_assoc] at h
    exact append_ne_empty _ _ (by decide) h
  · intro h
    have hno : ¬ ∃ c ∈ table.columns, c.primary_key = true := by
      rintro ⟨c, hc, hp⟩
      rw [h c hc] at hp
      cases hp
    unfold generateEqualsHashCode pkColumns
    simp only [isEmpty_filter_eq_true _ _ hno, Bool.not_true, Bool.false_eq_true, if_false]

/-- C17 (witness): `ordersTable` has the primary-key columns `id` and `ref_code`. -/
theorem C17_equals_hashCode_contract_witness :
    (∃ c ∈ ordersTable.columns, c.primary_key = true) ∧
    generateEqualsHashCode ordersTable =
      "    @Override\n    public boolean equals(Object o) \x7b\n" ++
      "        if (this == o) return true;\n" ++
      "        if (o == null || getClass() != o.getClass()) return false;\n" ++
      "        " ++ ordersTable.class_name ++ " that = (" ++ ordersTable.class_name ++ ") o;\n" ++
      "        return " ++
      " && ".intercalate
        ((ordersTable.columns.filter fun c => c.primary_key).map fun c =>
          "Objects.equals(" ++ c.field_name ++ ", that." ++ c.field_name ++ ")") ++
      ";\n    \x7d\n\n" ++
      "    @Override\n    public int hashCode() \x7b\n" ++
      "        return Objects.hash(" ++
      ", ".intercalate
        ((ordersTable.columns.filter fun c => c.primary_key).map fun c => c.field_name) ++
      ");\n    \x7d\n\n" :=
  ⟨by decide, C17_equals_hashCode_contract.2.1 ordersTable (by decide)⟩

/-- A text that occurs in the second part occurs in the whole. -/
theorem containsSub_append_right (n a b : List Char) (h : containsSub n b = true) :
    containsSub n (a ++ b) = true := by
  induction a with
  | nil => exact h
  | cons x xs ih =>
    simp only [List.cons_append, containsSub, Bool.or_eq_true]
    exact Or.inr ih

/-- A text that occurs in the first part occurs in the whole. -/
theorem containsSub_append_left (n a b : List Char) (h : containsSub n a = true) :
    containsSub n (a ++ b) = true := by
  induction a with
  | nil =>
    have hn : n = [] := by simpa [containsSub] using h
    subst hn
    cases b <;> simp [containsSub]
  | cons x xs ih =>
    simp only [containsSub, Bool.or_eq_true] at h
    simp only [List.cons_append, containsSub, Bool.or_eq_true]
    rcases h with h | h
    · left
      rw [List.isPrefixOf_iff_prefix] at h ⊢
      exact h.trans (List.prefix_append _ _)
    · exact Or.inr (ih h)

/-- C18 (counterexample): the clause `n INT AUTO_INCREMENT` gives a column with
`auto_increment = true` and `primary_key = false`, and the rendered field does not
contain the generation-strategy marker. -/
theorem C18_auto_increment_without_marker :
    (parseColumn "n INT AUTO_INCREMENT").auto_increment = true ∧
    (parseColumn "n INT AUTO_INCREMENT").primary_key = false ∧
    containsSub generatedValueMarker.toList
      (generateField (parseColumn "n INT AUTO_INCREMENT")).toList = false ∧
    generateField (parseColumn "n INT AUTO_INCREMENT") =
      "    /**\n     * Campo n\n     */\n    @Column(name = \"n\")\n    private Integer n;\n\n" := by
  decide

/-- C18 (amended): the field rendered for a column with `primary_key = true` and
`auto_increment = true` contains the generation-strategy marker; the marker block
of `generateField`, between the comment and the column mapping, contains it
exactly for these columns, so not for a column with `auto_increment = false` nor
for one with `primary_key = false`; for these columns the block is the line `@Id`
followed at once by the marker line, and for a column with `primary_key = false`
the block is empty. -/
theorem C18_generation_strategy_marker :
    (∀ column : ColumnInfo, column.primary_key = true → column.auto_increment = true →
      containsSub generatedValueMarker.toList (generateField column).toList = true) ∧
    (∀ column : ColumnInfo,
      generateField column = fieldDoc column ++ fieldMarkers column ++ fieldColumn column) ∧
    (∀ column : ColumnInfo,
      containsSub generatedValueMarker.toList (fieldMarkers column).toList = true ↔
        (column.primary_key = true ∧ column.auto_increment = true)) ∧
    (∀ column : ColumnInfo, column.auto_increment = false →
      fieldMarkers column = if column.primary_key then "    @Id\n" else "") ∧
    (∀ column : ColumnInfo, column.primary_key = true → column.auto_increment = true →
      fieldMarkers column =
        "    @Id\n    @GeneratedValue(strategy = GenerationType.IDENTITY)\n") ∧
    (∀ column : ColumnInfo, column.primary_key = false → fieldMarkers column = "") := by
  have hiff : ∀ column : ColumnInfo,
      containsSub generatedValueMarker.toList (fieldMarkers column).toList = true ↔
        (column.primary_key = true ∧ column.auto_increment = true) := by
    intro column
    unfold fieldMarkers
    cases column.primary_key <;> cases column.auto_increment <;> decide
  refine ⟨?_, fun _ => rfl, hiff, ?_, ?_, ?_⟩
  · intro column hpk hai
    have h := (hiff column).2 ⟨hpk, hai⟩
    have hl : (generateField column).toList =
        (fieldDoc column).toList ++ ((fieldMarkers column).toList ++ (fieldColumn column).toList) := by
      simp [generateField, String.toList, String.data_append]
    rw [hl]
    exact containsSub_append_right _ _ _ (containsSub_append_left _ _ _ h)
  · intro column hai
    unfold fieldMarkers
    rw [hai]
    cases column.primary_key <;> rfl
  · intro column hpk hai
    unfold fieldMarkers
    rw [hpk, hai]
    decide
  · intro column hpk
    unfold fieldMarkers
    rw [hpk]
    rfl

/-- C18 (witness): the clause `id INT AUTO_INCREMENT PRIMARY KEY` gives a column with
both flags, and its field contains the marker; in `ordersTable` only the key
column does. -/
theorem C18_generation_strategy_marker_witness :
    (parseColumn "id INT AUTO_INCREMENT PRIMARY KEY").primary_key = true ∧
    (parseColumn "id INT AUTO_INCREMENT PRIMARY KEY").auto_increment = true ∧
    (ordersTable.columns.map fun c =>
      containsSub generatedValueMarker.toList (generateField c).toList) =
        [true, false, false, false] ∧
    containsSub generatedValueMarker.toList
      (generateField (parseColumn "id INT AUTO_INCREMENT PRIMARY KEY")).toList = true :=
  ⟨by decide, by decide, by decide,
    C18_generation_strategy_marker.1 _ (by decide) (by decide)⟩

/-- No string is below itself. -/
theorem strLt_irrefl (a : List Char) : strLt a a = false := by
  induction a with
  | nil => rfl
  | cons x xs ih => simp [strLt, ih]

/-- The order of strings is transitive. -/
theorem strLt_trans (a b c : List Char) (h1 : strLt a b = true) (h2 : strLt b c = true) :
    strLt a c = true := by
  induction a generalizing b c with
  | nil =>
    cases b with
    | nil => simp [strLt] at h1
    | cons y ys =>
      cases c with
      | nil => simp [strLt] at h2
      | cons z zs => rfl
  | cons x xs ih =>
    cases b with
    | nil => simp [strLt] at h1
    | cons y ys =>
      cases c with
      | nil => simp [strLt] at h2
      | cons z zs =>
        simp only [strLt, Bool.or_eq_true, decide_eq_true_eq, Bool.and_eq_true, beq_iff_eq] at h1 h2 ⊢
        rcases h1 with h1 | ⟨rfl, h1⟩
        · rcases h2 with h2 | ⟨rfl, h2⟩
          · exact Or.inl (by omega)
          · exact Or.inl h1
        · rcases h2 with h2 | ⟨rfl, h2⟩
          · exact Or.inl h2
          · exact Or.inr ⟨rfl, ih _ _ h1 h2⟩

/-- Two different strings are ordered one way or the other. -/
theorem strLt_total (a b : List Char) (h1 : strLt a b = false) (hne : a ≠ b) :
    strLt b a = true := by
  induction a generalizing b with
  | nil =>
    cases b with
    | nil => exact absurd rfl hne
    | cons y ys => simp [strLt] at h1
  | cons x xs ih =>
    cases b with
    | nil => rfl
    | cons y ys =>
      simp only [strLt, Bool.or_eq_false_iff, decide_eq_false_iff_not, Bool.and_eq_false_iff,
        beq_eq_false_iff_ne, ne_eq] at h1
      simp only [strLt, Bool.or_eq_true, decide_eq_true_eq, Bool.and_eq_true, beq_iff_eq]
      by_cases hxy : x = y
      · subst hxy
        right
        refine ⟨rfl, ih ys ?_ ?_⟩
        · rcases h1.2 with h | h
          · exact absurd rfl h
          · exact h
        · intro h; exact hne (by rw [h])
      · left
        have : x.toNat ≠ y.toNat := fun h => hxy (by
          rw [← Char.ofNat_toNat x, ← Char.ofNat_toNat y, h])
        omega


/-- The elements after an insertion. -/
theorem mem_setInsert (x z : String) (l : List String) :
    z ∈ setInsert x l ↔ z = x ∨ z ∈ l := by
  induction l with
  | nil => simp [setInsert]
  | cons y ys ih =>
    unfold setInsert
    by_cases h1 : strLt x.toList y.toList = true
    · rw [if_pos h1]
      simp
    · rw [if_neg h1]
      by_cases h2 : (x == y) = true
      · rw [if_pos h2]
        have : x = y := by simpa using h2
        subst this
        simp
      · rw [if_neg h2]
        simp only [List.mem_cons, ih]
        tauto

/-- Insertion keeps the list strictly ascending. -/
theorem setInsert_pairwise (x : String) (l : List String)
    (h : l.Pairwise fun a b => strLt a.toList b.toList = true) :
    (setInsert x l).Pairwise fun a b => strLt a.toList b.toList = true := by
  induction l with
  | nil => simp [setInsert]
  | cons y ys ih =>
    rw [List.pairwise_cons] at h
    unfold setInsert
    by_cases h1 : strLt x.toList y.toList = true
    · rw [if_pos h1]
      refine List.Pairwise.cons ?_ (List.Pairwise.cons h.1 h.2)
      intro z hz
      rcases List.mem_cons.1 hz with rfl | hz
      · exact h1
      · exact strLt_trans _ _ _ h1 (h.1 z hz)
    · rw [if_neg h1]
      by_cases h2 : (x == y) = true
      · rw [if_pos h2]
        exact List.Pairwise.cons h.1 h.2
      · rw [if_neg h2]
        refine List.Pairwise.cons ?_ (ih h.2)
        intro z hz
        rcases (mem_setInsert x z ys).1 hz with rfl | hz
        · have hne : z.toList ≠ y.toList := by
            intro h0
            exact h2 (by simpa using String.ext h0)
          exact strLt_total _ _ (by simpa using h1) hne
        · exact h.1 z hz

/-- A successful look-up returns an entry of the table. -/
theorem lookup_mem {α β : Type} [BEq α] [LawfulBEq α] (k : α) (v : β) (l : List (α × β))
    (h : l.lookup k = some v) : (k, v) ∈ l := by
  induction l with
  | nil => cases h
  | cons p l ih =>
    obtain ⟨a, b⟩ := p
    by_cases hk : (k == a) = true
    · simp only [List.lookup, hk, Option.some.injEq] at h
      have : k = a := by simpa using hk
      subst this; subst h
      exact List.mem_cons_self _ _
    · have hk2 : (k == a) = false := by simpa using hk
      simp only [List.lookup, hk2] at h
      exact List.mem_cons_of_mem _ (ih h)

/-- One step of the loop that fills `imports`. -/
theorem importFold_spec (cols : List ColumnInfo) (acc : List String)
    (hacc : acc.Pairwise fun a b => strLt a.toList b.toList = true) :
    ((cols.foldl addImport acc).Pairwise fun a b => strLt a.toList b.toList = true) ∧
    ∀ z, z ∈ cols.foldl addImport acc ↔
      z ∈ acc ∨ ∃ c ∈ cols, IMPORT_MAP.lookup c.java_type = some z := by
  induction cols generalizing acc with
  | nil => exact ⟨hacc, by simp⟩
  | cons c cols ih =>
    rw [List.foldl_cons]
    cases hl : IMPORT_MAP.lookup c.java_type with
    | none =>
      have hstep : addImport acc c = acc := by simp [addImport, hl]
      rw [hstep]
      obtain ⟨h1, h2⟩ := ih acc hacc
      refine ⟨h1, fun z => ?_⟩
      rw [h2 z]
      simp [hl]
    | some imp =>
      have hstep : addImport acc c = setInsert imp acc := by simp [addImport, hl]
      rw [hstep]
      obtain ⟨h1, h2⟩ := ih (setInsert imp acc) (setInsert_pairwise imp acc hacc)
      refine ⟨h1, fun z => ?_⟩
      rw [h2 z, mem_setInsert]
      simp only [List.mem_cons, exists_eq_or_imp, hl, Option.some.injEq]
      constructor
      · rintro ((rfl | h) | h)
        · exact Or.inr (Or.inl rfl)
        · exact Or.inl h
        · exact Or.inr (Or.inr h)
      · rintro (h | rfl | h)
        · exact Or.inl (Or.inr h)
        · exact Or.inl (Or.inl rfl)
        · exact Or.inr h

/-- The set `imports` is strictly ascending and holds the two fixed imports and the
imports of the mapped column types. -/
theorem importSet_spec (table : TableInfo) :
    ((importSet table).Pairwise fun a b => strLt a.toList b.toList = true) ∧
    ∀ z, z ∈ importSet table ↔
      (z = "java.io.Serializable" ∨ z = "javax.persistence.*") ∨
        ∃ c ∈ table.columns, IMPORT_MAP.lookup c.java_type = some z := by
  have hbase : setInsert "java.io.Serializable" (setInsert "javax.persistence.*" []) =
      ["java.io.Serializable", "javax.persistence.*"] := by decide
  unfold importSet
  rw [hbase]
  obtain ⟨h1, h2⟩ := importFold_spec table.columns
    ["java.io.Serializable", "javax.persistence.*"] (by decide)
  refine ⟨h1, fun z => ?_⟩
  exact (h2 z).trans (by simp)

/-- Two strictly ascending lists with the same elements are equal. -/
theorem sorted_ext (l1 l2 : List String)
    (h1 : l1.Pairwise fun a b => strLt a.toList b.toList = true)
    (h2 : l2.Pairwise fun a b => strLt a.toList b.toList = true)
    (hmem : ∀ z, z ∈ l1 ↔ z ∈ l2) : l1 = l2 := by
  have hirr : ∀ a b : String, strLt a.toList b.toList = true → a ≠ b := by
    intro a b hab h
    subst h
    rw [strLt_irrefl] at hab
    cases hab
  have hd1 : l1.Nodup := h1.imp (fun {a b} hab => hirr a b hab)
  have hd2 : l2.Nodup := h2.imp (fun {a b} hab => hirr a b hab)
  haveI : IsAntisymm String (fun a b => strLt a.toList b.toList = true) :=
    ⟨fun a b hab hba => by
      have := strLt_trans _ _ _ hab hba
      rw [strLt_irrefl] at this
      cases this⟩
  exact List.eq_of_perm_of_sorted ((List.perm_ext_iff_of_nodup hd1 hd2).2 hmem) h1 h2


/-- Every rendered import is one of the nine possible imports. -/
theorem importSet_subset_possible (table : TableInfo) :
    ∀ z ∈ importSet table, z ∈ possibleImports := by
  intro z hz
  rcases ((importSet_spec table).2 z).1 hz with (rfl | rfl) | ⟨c, _, hc⟩
  · decide
  · decide
  · have hp : ∀ p ∈ IMPORT_MAP, p.2 ∈ possibleImports := by decide
    exact hp _ (lookup_mem _ _ _ hc)

/-- The set `imports` depends only on the set of mapped column types. -/
theorem importSet_congr (t1 t2 : TableInfo)
    (h : ∀ ty, ty ∈ t2.columns.map (fun c => c.java_type) ↔
      ty ∈ t1.columns.map (fun c => c.java_type)) :
    importSet t2 = importSet t1 := by
  apply sorted_ext _ _ (importSet_spec t2).1 (importSet_spec t1).1
  intro z
  rw [(importSet_spec t2).2 z, (importSet_spec t1).2 z]
  have key : ∀ ta tb : TableInfo,
      (∀ ty, ty ∈ ta.columns.map (fun c => c.java_type) →
        ty ∈ tb.columns.map (fun c => c.java_type)) →
      (∃ c ∈ ta.columns, IMPORT_MAP.lookup c.java_type = some z) →
      ∃ c ∈ tb.columns, IMPORT_MAP.lookup c.java_type = some z := by
    rintro ta tb hsub ⟨c, hc, hl⟩
    obtain ⟨c2, hc2, heq⟩ := List.mem_map.1 (hsub _ (List.mem_map.2 ⟨c, hc, rfl⟩))
    exact ⟨c2, hc2, by rw [heq]; exact hl⟩
  constructor
  · rintro (h0 | h0)
    · exact Or.inl h0
    · exact Or.inr (key t2 t1 (fun ty => (h ty).1) h0)
  · rintro (h0 | h0)
    · exact Or.inl h0
    · exact Or.inr (key t1 t2 (fun ty => (h ty).2) h0)

/-- C19: for every table the imports are rendered in strictly ascending
lexicographic order, as names and as lines, without duplicates; they include
`javax.persistence.*` and `java.io.Serializable`; they are the same for every
table with the same set of mapped column types, in particular for every
reordering of the columns; and the text of the class is the package line, then
these import lines in this order, then the rest. -/
theorem C19_import_list (table : TableInfo) :
    ((importSet table).Pairwise fun a b => strLt a.toList b.toList = true) ∧
    ((importLines table).Pairwise fun a b => strLt a.toList b.toList = true) ∧
    (importSet table).Nodup ∧ (importLines table).Nodup ∧
    "javax.persistence.*" ∈ importSet table ∧ "java.io.Serializable" ∈ importSet table ∧
    "import javax.persistence.*;\n" ∈ importLines table ∧
    "import java.io.Serializable;\n" ∈ importLines table ∧
    (∀ table2 : TableInfo,
      (∀ ty, ty ∈ table2.columns.map (fun c => c.java_type) ↔
        ty ∈ table.columns.map (fun c => c.java_type)) →
      importLines table2 = importLines table) ∧
    (∀ table2 : TableInfo, table2.columns.Perm table.columns →
      importLines table2 = importLines table) ∧
    (∀ (tables : List TableInfo) (package_name : String),
      ∃ rest : String, entityText tables table package_name =
        "package " ++ package_name ++ ";\n\n" ++ appendAll (importLines table) ++ "\n" ++
          rest) := by
  have hirr : ∀ a b : String, strLt a.toList b.toList = true → a ≠ b := by
    intro a b hab h
    subst h
    rw [strLt_irrefl] at hab
    cases hab
  have hs := (importSet_spec table).1
  have hlines : (importLines table).Pairwise fun a b => strLt a.toList b.toList = true := by
    unfold importLines
    rw [List.pairwise_map]
    refine hs.imp_of_mem ?_
    intro a b ha hb hab
    have hmono : ∀ a ∈ possibleImports, ∀ b ∈ possibleImports,
        strLt a.toList b.toList = true →
        strLt ("import " ++ a ++ ";\n").toList ("import " ++ b ++ ";\n").toList = true := by
      decide
    exact hmono a (importSet_subset_possible table a ha) b
      (importSet_subset_possible table b hb) hab
  have hm1 : "javax.persistence.*" ∈ importSet table :=
    ((importSet_spec table).2 _).2 (Or.inl (Or.inr rfl))
  have hm2 : "java.io.Serializable" ∈ importSet table :=
    ((importSet_spec table).2 _).2 (Or.inl (Or.inl rfl))
  have hcongr : ∀ table2 : TableInfo,
      (∀ ty, ty ∈ table2.columns.map (fun c => c.java_type) ↔
        ty ∈ table.columns.map (fun c => c.java_type)) →
      importLines table2 = importLines table := by
    intro table2 h
    unfold importLines
    rw [importSet_congr table table2 h]
  refine ⟨hs, hlines, hs.imp (fun {a b} hab => hirr a b hab),
    hlines.imp (fun {a b} hab => hirr a b hab), hm1, hm2,
    List.mem_map.2 ⟨_, hm1, rfl⟩, List.mem_map.2 ⟨_, hm2, rfl⟩, hcongr, ?_, ?_⟩
  · intro table2 hperm
    apply hcongr
    intro ty
    exact (hperm.map _).mem_iff
  · intro tables package_name
    unfold entityText
    simp only [String.append_assoc]
    exact ⟨_, rfl⟩

/-- C19 (witness): `eventsTable` and the table with its columns reversed. -/
theorem C19_import_list_witness :
    ({ eventsTable with columns := eventsTable.columns.reverse } : TableInfo).columns.Perm
      eventsTable.columns ∧
    importLines eventsTable =
      ["import java.io.Serializable;\n", "import java.math.BigDecimal;\n",
       "import java.time.LocalDate;\n", "import java.util.UUID;\n",
       "import javax.persistence.*;\n"] ∧
    importLines { eventsTable with columns := eventsTable.columns.reverse } =
      importLines eventsTable :=
  ⟨List.reverse_perm _, by decide,
    (C19_import_list eventsTable).2.2.2.2.2.2.2.2.2.1 _ (List.reverse_perm _)⟩

/-- C20 (counterexample): the distinct table names `order_item` and `order__item`
have the same class name `OrderItem`; the run on a schema with these two tables
writes twice to `./generated-entities/OrderItem.java`. -/
theorem C20_class_names_collide :
    ["order_item", "order__item"].Nodup ∧
    (["order_item", "order__item"].map fun name => toCamelCase name true ++ ".java") =
      ["OrderItem.java", "OrderItem.java"] ∧
    (parseSQL (cleanSQL collidingSql)).map (fun t => (t.name, t.class_name)) =
      [("order_item", "OrderItem"), ("order__item", "OrderItem")] ∧
    (main collidingWorld ["sqlToJPA", "schema.sql"]).2.map Effect.path =
      ["./generated-entities", "./generated-entities/OrderItem.java",
       "./generated-entities/OrderItem.java"] := by
  decide

/-- Cancellation of a common ending. -/
theorem append_right_cancel (a b s : String) (h : a ++ s = b ++ s) : a = b := by
  have := congrArg String.data h
  simp only [String.data_append] at this
  exact String.ext (List.append_cancel_right this)

/-- Cancellation of a common beginning. -/
theorem append_left_cancel (s a b : String) (h : s ++ a = s ++ b) : a = b := by
  have := congrArg String.data h
  simp only [String.data_append] at this
  exact String.ext (List.append_cancel_left this)

/-- The path of a relative file name in a directory. -/
theorem pathJoin_relative (dir name : String) (h : name.toList.head? ≠ some '/') :
    pathJoin dir name =
      (if dir.isEmpty || dir.toList.getLast? == some '/' then dir else dir ++ "/") ++ name := by
  unfold pathJoin
  have h1 : (name.toList.head? == some '/') = false := by simpa using h
  rw [h1]
  simp only [Bool.false_eq_true, if_false]
  split <;> rfl

/-- A file name starts like its class name. -/
theorem java_head (cn : String) (h : cn.toList.head? ≠ some '/') :
    (cn ++ ".java").toList.head? ≠ some '/' := by
  have hl : (cn ++ ".java").toList = cn.toList ++ ".java".toList := by
    simp [String.toList, String.data_append]
  rw [hl]
  cases hc : cn.toList with
  | nil => decide
  | cons a l =>
    rw [hc] at h
    simpa using h

/-- C20 (amended): the class name of every table returned by `parseSQL` is
`toCamelCase` of its name; tables with pairwise distinct class names have
pairwise distinct artifact file names, and `generateEntityClass` writes them to
pairwise distinct paths of the output directory when no class name starts with
`/`. -/
theorem C20_distinct_class_names :
    (∀ (sql_content : String), ∀ t ∈ parseSQL sql_content,
      t.class_name = toCamelCase t.name true) ∧
    (∀ tables : List TableInfo, (tables.map fun t => t.class_name).Nodup →
      (tables.map fun t => t.class_name ++ ".java").Nodup) ∧
    (∀ (tables all : List TableInfo) (package_name output_dir : String),
      (tables.map fun t => t.class_name).Nodup →
      (∀ t ∈ tables, t.class_name.toList.head? ≠ some '/') →
      (tables.map fun t =>
        (generateEntityClass all t package_name output_dir).path).Nodup) := by
  refine ⟨?_, ?_, ?_⟩
  · intro sql_content t ht
    obtain ⟨m, _, rfl⟩ := mem_parseSQL sql_content t ht
    rfl
  · intro tables h
    have := h.map (f := fun cn : String => cn ++ ".java")
      (fun a b hab => append_right_cancel a b ".java" hab)
    simpa [List.map_map, Function.comp_def] using this
  · intro tables all package_name output_dir h hrel
    have hmap : (tables.map fun t =>
        (generateEntityClass all t package_name output_dir).path) =
        (tables.map fun t => t.class_name).map
          (fun cn => pathJoin output_dir (cn ++ ".java")) := by
      simp [List.map_map, Function.comp_def, generateEntityClass, Effect.path]
    rw [hmap]
    apply List.Nodup.map_on _ h
    intro a ha b hb hab
    obtain ⟨ta, hta, rfl⟩ := List.mem_map.1 ha
    obtain ⟨tb, htb, rfl⟩ := List.mem_map.1 hb
    rw [pathJoin_relative _ _ (java_head _ (hrel ta hta)),
      pathJoin_relative _ _ (java_head _ (hrel tb htb))] at hab
    exact append_right_cancel _ _ _ (append_left_cancel _ _ _ hab)

/-- C20 (witness): the tables `order_item` and `orders` have distinct class names and
are written to distinct paths. -/
theorem C20_distinct_class_names_witness :
    ((parseSQL "CREATE TABLE order_item (id INT); CREATE TABLE orders (id INT);").map
      fun t => t.class_name).Nodup ∧
    (∀ t ∈ parseSQL "CREATE TABLE order_item (id INT); CREATE TABLE orders (id INT);",
      t.class_name.toList.head? ≠ some '/') ∧
    ((parseSQL "CREATE TABLE order_item (id INT); CREATE TABLE orders (id INT);").map fun t =>
      (generateEntityClass [] t "p" "out").path).Nodup :=
  ⟨by decide, by decide, C20_distinct_class_names.2.2 _ [] "p" "out" (by decide) (by decide)⟩

/-- The atom `\s` on a non-empty input. -/
theorem ws_run_cons (f : Flags) (k : Cont) (x : Char) (xs : List Char) (caps : Caps) :
    Re.ws.run f k (x :: xs) caps = if isspace x then k xs caps else none := by
  simp [Re.ws, Re.run, ClassItem.test]

/-- The atom `\s` on the empty input. -/
theorem ws_run_nil (f : Flags) (k : Cont) (caps : Caps) : Re.ws.run f k [] caps = none := by
  simp [Re.ws, Re.run]

/-- The greedy loop over `\s` consumes the whole run of white space. -/
theorem starLoop_ws (f : Flags) (n : Nat) (s : List Char) (caps : Caps) (h : s.length ≤ n) :
    starLoop true (Re.ws.run f) (fun s1 caps1 => some (s1, caps1)) n s caps =
      some (s.dropWhile isspace, caps) := by
  induction n generalizing s with
  | zero =>
    have : s = [] := List.length_eq_zero.1 (Nat.le_zero.1 h)
    subst this
    rfl
  | succ n ih =>
    cases s with
    | nil => simp [starLoop, ws_run_nil]
    | cons x xs =>
      have hlen : xs.length ≤ n := by simpa using h
      by_cases hx : isspace x = true
      · simp [starLoop, ws_run_cons, hx, ih xs hlen]
      · simp [starLoop, ws_run_cons, hx]

/-- The pattern `\s+` at the head of the input: the maximal run of white space. -/
theorem whitespace_run (s : List Char) :
    whitespace_pattern.run Flags.default (fun s1 caps1 => some (s1, caps1)) s [] =
      match s with
      | [] => none
      | x :: xs => if isspace x then some (xs.dropWhile isspace, []) else none := by
  have hpat : whitespace_pattern.run Flags.default (fun s1 caps1 => some (s1, caps1)) s [] =
      Re.ws.run Flags.default
        (fun s2 caps2 => starLoop true (Re.ws.run Flags.default)
          (fun s1 caps1 => some (s1, caps1)) s2.length s2 caps2) s [] := rfl
  rw [hpat]
  cases s with
  | nil => rw [ws_run_nil]
  | cons x xs =>
    rw [ws_run_cons]
    by_cases hx : isspace x = true
    · simp only [hx, if_true]
      exact starLoop_ws Flags.default xs.length xs [] (le_refl _)
    · simp only [hx, Bool.false_eq_true, if_false]

/-- Inside a run, the rest of the run is skipped. -/
theorem collapseWs_true (l : List Char) :
    collapseWs true l = collapseWs false (l.dropWhile isspace) := by
  induction l with
  | nil => rfl
  | cons c cs ih =>
    by_cases hc : isspace c = true
    · simp [collapseWs, hc, ih, List.dropWhile_cons]
    · simp [collapseWs, hc, List.dropWhile_cons]

/-- One round of `regex_replace`: the text up to the first match, the format, and the
replacement of the rest. -/
theorem replaceOut_succ (f : Flags) (r : Re) (fmt : List Char) (n : Nat) (s : List Char) :
    replaceOut f r fmt (n + 1) s =
      match regex_search f r s with
      | none => s
      | some m =>
        if m.matched.isEmpty then m.before ++ fmt ++ m.after
        else m.before ++ fmt ++ replaceOut f r fmt n m.after := by
  unfold replaceOut
  rw [regexIter]
  cases hs : regex_search f r s with
  | none => simp [lastAfter]
  | some m =>
    by_cases he : m.matched.isEmpty = true
    · simp [he, lastAfter]
    · simp [he, lastAfter_cons]

/-- The round of `regex_replace` for `\s+`, along the search for the first match. -/
theorem whitespace_search (n : Nat)
    (ih : ∀ t : List Char, t.length < n →
      replaceOut Flags.default whitespace_pattern [' '] n t = collapseWs false t)
    (skipped s : List Char) (hlen : s.length ≤ n) :
    (match searchFrom Flags.default whitespace_pattern skipped s with
      | none => skipped.reverse ++ s
      | some m =>
        if m.matched.isEmpty then m.before ++ [' '] ++ m.after
        else m.before ++ [' '] ++ replaceOut Flags.default whitespace_pattern [' '] n m.after) =
      skipped.reverse ++ collapseWs false s := by
  induction s generalizing skipped with
  | nil => simp [searchFrom, whitespace_run, collapseWs]
  | cons c cs ihs =>
    have hcs : cs.length < n := by simpa using hlen
    rw [searchFrom, whitespace_run]
    by_cases hc : isspace c = true
    · have hdrop : (cs.dropWhile isspace).length ≤ cs.length :=
        (List.dropWhile_sublist _).length_le
      have htake : ((c :: cs).take ((c :: cs).length - (cs.dropWhile isspace).length)).isEmpty
          = false := by
        have : (c :: cs).length - (cs.dropWhile isspace).length =
            (cs.length - (cs.dropWhile isspace).length) + 1 := by
          simp only [List.length_cons]; omega
        rw [this]
        rfl
      simp only [hc, if_true, htake, Bool.false_eq_true, if_false]
      rw [ih _ (lt_of_le_of_lt hdrop hcs)]
      simp [collapseWs, hc, collapseWs_true]
    · simp only [hc, Bool.false_eq_true, if_false]
      have e1 : skipped.reverse ++ c :: cs = (c :: skipped).reverse ++ cs := by simp
      have e2 : collapseWs false (c :: cs) = c :: collapseWs false cs := by
        simp [collapseWs, hc]
      have e3 : skipped.reverse ++ c :: collapseWs false cs =
          (c :: skipped).reverse ++ collapseWs false cs := by simp
      rw [e1, e2, e3]
      exact ihs (c :: skipped) (le_of_lt hcs)

/-- Replacing `\s+` by one space collapses the runs, for every sufficient counter. -/
theorem whitespace_replaceOut (n : Nat) (s : List Char) (h : s.length < n) :
    replaceOut Flags.default whitespace_pattern [' '] n s = collapseWs false s := by
  induction n generalizing s with
  | zero => omega
  | succ n ih =>
    rw [replaceOut_succ]
    have := whitespace_search n ih [] s (by omega)
    simpa [regex_search] using this

/-- Replacing `\s+` by one space collapses the runs of white space. -/
theorem whitespace_replace (s : List Char) :
    regex_replace Flags.default whitespace_pattern [' '] s = collapseWs false s :=
  whitespace_replaceOut (s.length + 1) s (Nat.lt_succ_self _)

/-- The only white space left by the normalisation is the space. -/
theorem collapseWs_space (inRun : Bool) (l : List Char) :
    ∀ c ∈ collapseWs inRun l, isspace c = true → c = ' ' := by
  induction l generalizing inRun with
  | nil => intro c hc; cases hc
  | cons x xs ih =>
    intro c hc hsp
    unfold collapseWs at hc
    by_cases hx : isspace x = true
    · rw [if_pos hx] at hc
      cases inRun with
      | true =>
        simp only [if_true] at hc
        exact ih true c hc hsp
      | false =>
        simp only [Bool.false_eq_true, if_false] at hc
        rcases List.mem_cons.1 hc with rfl | hc
        · rfl
        · exact ih true c hc hsp
    · rw [if_neg hx] at hc
      rcases List.mem_cons.1 hc with rfl | hc
      · exact absurd hsp hx
      · exact ih false c hc hsp

/-- The normalisation leaves no two adjacent spaces, and no space after a run. -/
theorem collapseWs_no_double (l : List Char) :
    (∀ inRun, containsSub [' ', ' '] (collapseWs inRun l) = false) ∧
      (collapseWs true l).head? ≠ some ' ' := by
  induction l with
  | nil => exact ⟨fun _ => rfl, by simp [collapseWs]⟩
  | cons x xs ih =>
    by_cases hx : isspace x = true
    · refine ⟨fun inRun => ?_, ?_⟩
      · cases inRun with
        | true => simpa [collapseWs, hx] using ih.1 true
        | false =>
          have h1 := ih.1 true
          have h2 := ih.2
          simp only [collapseWs, hx, if_true, Bool.false_eq_true, if_false, containsSub,
            Bool.or_eq_false_iff]
          refine ⟨?_, h1⟩
          cases hcw : collapseWs true xs with
          | nil => rfl
          | cons y ys =>
            rw [hcw] at h2
            have hy : ' ' ≠ y := by
              intro h0
              exact h2 (by rw [← h0]; rfl)
            simp [List.isPrefixOf, hy]
      · simpa [collapseWs, hx] using ih.2
    · have hne : x ≠ ' ' := by
        intro h0
        subst h0
        exact hx (by decide)
      refine ⟨fun inRun => ?_, ?_⟩
      · have h1 := ih.1 false
        simp only [collapseWs, hx, Bool.false_eq_true, if_false, containsSub,
          Bool.or_eq_false_iff]
        refine ⟨?_, h1⟩
        have hne2 : ' ' ≠ x := fun h0 => hne h0.symm
        simp [List.isPrefixOf, hne2]
      · simp [collapseWs, hx, hne]

/-- The normalisation keeps the other characters, in order. -/
theorem collapseWs_keeps (inRun : Bool) (l : List Char) :
    (collapseWs inRun l).filter (fun c => !isspace c) = l.filter (fun c => !isspace c) := by
  induction l generalizing inRun with
  | nil => rfl
  | cons x xs ih =>
    by_cases hx : isspace x = true
    · cases inRun with
      | true => simp [collapseWs, hx, ih, List.filter_cons]
      | false =>
        have hsp : isspace ' ' = true := by decide
        simp [collapseWs, hx, ih, List.filter_cons, hsp]
    · simp [collapseWs, hx, ih, List.filter_cons]

/-- C21: for every input the output of `cleanSQL` is the text left by comment
removal with every maximal run of white space replaced by one space and every
other character kept; it contains no white-space character other than the space
(no newline, tab, carriage return, vertical tab, form feed) and no two adjacent
spaces, and its other characters are those of the text left by comment removal,
in order. -/
theorem C21_whitespace_normalization (sql_content : String) :
    (cleanSQL sql_content).toList = collapseWs false (removeComments sql_content.toList) ∧
    (∀ c ∈ (cleanSQL sql_content).toList, isspace c = true → c = ' ') ∧
    (∀ c ∈ ['\n', '\t', '\r', Char.ofNat 11, Char.ofNat 12],
      c ∉ (cleanSQL sql_content).toList) ∧
    containsSub "  ".toList (cleanSQL sql_content).toList = false ∧
    (cleanSQL sql_content).toList.filter (fun c => !isspace c) =
      (removeComments sql_content.toList).filter (fun c => !isspace c) := by
  have heq : (cleanSQL sql_content).toList =
      collapseWs false (removeComments sql_content.toList) :=
    whitespace_replace _
  refine ⟨heq, ?_, ?_, ?_, ?_⟩
  · rw [heq]
    exact collapseWs_space _ _
  · intro c hc hmem
    rw [heq] at hmem
    have hws : ∀ c ∈ ['\n', '\t', '\r', Char.ofNat 11, Char.ofNat 12],
        isspace c = true ∧ c ≠ ' ' := by decide
    exact (hws c hc).2 (collapseWs_space _ _ c hmem (hws c hc).1)
  · rw [heq]
    exact (collapseWs_no_double _).1 false
  · rw [heq]
    exact collapseWs_keeps _ _

/-- C21 (witness): on `messySql` the output is
`CREATE TABLE t ( a INT, -- first b INT ); `; the block comment is removed, the
line comment in the middle of the text is not. -/
theorem C21_whitespace_normalization_witness :
    cleanSQL messySql = "CREATE TABLE t ( a INT, -- first b INT ); " ∧
    (∀ c ∈ (cleanSQL messySql).toList, isspace c = true → c = ' ') ∧
    containsSub "  ".toList (cleanSQL messySql).toList = false :=
  ⟨by decide, (C21_whitespace_normalization messySql).2.1,
    (C21_whitespace_normalization messySql).2.2.2.1⟩

/-- The mapped type of a base type, widened or not, is one of the fifteen types. -/
theorem convertSQLTypeToJava_mem (s : String) :
    convertSQLTypeToJava s ∈ mappedTypes ∧
      adjustForUnsigned (convertSQLTypeToJava s) ∈ mappedTypes := by
  unfold convertSQLTypeToJava
  cases hl : SQL_TO_JAVA_TYPE_MAP.lookup s with
  | none => exact ⟨by decide, by decide⟩
  | some t =>
    have hall : ∀ p ∈ SQL_TO_JAVA_TYPE_MAP,
        p.2 ∈ mappedTypes ∧ adjustForUnsigned p.2 ∈ mappedTypes := by decide
    exact hall _ (lookup_mem _ _ _ hl)

/-- The mapped type of a type token is one of the fifteen types. -/
theorem javaTypeOfToken_mem (sql_type : String) : javaTypeOfToken sql_type ∈ mappedTypes := by
  unfold javaTypeOfToken
  simp only
  split
  · exact (convertSQLTypeToJava_mem _).2
  · exact (convertSQLTypeToJava_mem _).1

/-- The columns of `parseColumns` have one of the fifteen mapped types. -/
theorem parseColumns_java_type (table_definition : String) :
    ∀ c ∈ parseColumns table_definition, c.java_type ∈ mappedTypes := by
  intro c hc
  unfold parseColumns at hc
  rw [List.mem_filterMap] at hc
  obtain ⟨clause, _, hcol⟩ := hc
  rw [columnOfClause_eq] at hcol
  split at hcol
  · rename_i hp
    cases hcol
    simp only [Bool.and_eq_true] at hp
    have hm := hp.2
    unfold matchesColumnShape at hm
    unfold parseColumn
    cases hr : regex_match Flags.nocase column_pattern (trimSpaces clause).toList with
    | none => rw [hr] at hm; cases hm
    | some m => exact javaTypeOfToken_mem _
  · cases hcol

/-- The marking loop keeps the mapped types. -/
theorem markPrimaryKeys_java_type (pks : List String) (cols : List ColumnInfo) :
    ∀ c ∈ markPrimaryKeys pks cols, ∃ c0 ∈ cols, c.java_type = c0.java_type := by
  intro c hc
  rw [markPrimaryKeys_eq_map, List.mem_map] at hc
  obtain ⟨c0, hc0, rfl⟩ := hc
  refine ⟨c0, hc0, ?_⟩
  split <;> rfl

/-- The columns of the tables of `parseSQL` have one of the fifteen mapped types. -/
theorem parseSQL_java_type (sql_content : String) (t : TableInfo)
    (ht : t ∈ parseSQL sql_content) : ∀ c ∈ t.columns, c.java_type ∈ mappedTypes := by
  obtain ⟨m, _, rfl⟩ := mem_parseSQL sql_content t ht
  intro c hc
  obtain ⟨c0, hc0, heq⟩ := markPrimaryKeys_java_type _ _ c hc
  rw [heq]
  exact parseColumns_java_type _ c0 hc0

/-- A text that occurs in a string occurs in the string followed by another. -/
theorem containsSub_str_left (n : List Char) (a b : String)
    (h : containsSub n a.toList = true) : containsSub n (a ++ b).toList = true := by
  have : (a ++ b).toList = a.toList ++ b.toList := by simp [String.toList, String.data_append]
  rw [this]
  exact containsSub_append_left _ _ _ h

/-- A text that occurs in a string occurs in the string preceded by another. -/
theorem containsSub_str_right (n : List Char) (a b : String)
    (h : containsSub n b.toList = true) : containsSub n (a ++ b).toList = true := by
  have : (a ++ b).toList = a.toList ++ b.toList := by simp [String.toList, String.data_append]
  rw [this]
  exact containsSub_append_right _ _ _ h

/-- A joined list starts with its first element. -/
theorem intercalate_cons_exists (sep a : String) (l : List String) :
    ∃ rest : String, sep.intercalate (a :: l) = a ++ rest := by
  cases l with
  | nil => exact ⟨"", by rw [intercalate_singleton]; simp⟩
  | cons b l => exact ⟨sep ++ sep.intercalate (b :: l), by
      rw [intercalate_cons_cons, String.append_assoc]⟩

/-- The text of equals/hashCode for a table with a primary-key column. -/
theorem generateEqualsHashCode_of_pk (table : TableInfo)
    (h : ∃ c ∈ table.columns, c.primary_key = true) :
    generateEqualsHashCode table =
      "    @Override\n    public boolean equals(Object o) \x7b\n" ++
      "        if (this == o) return true;\n" ++
      "        if (o == null || getClass() != o.getClass()) return false;\n" ++
      "        " ++ table.class_name ++ " that = (" ++ table.class_name ++ ") o;\n" ++
      "        return " ++
      " && ".intercalate
        ((table.columns.filter fun c => c.primary_key).map fun c =>
          "Objects.equals(" ++ c.field_name ++ ", that." ++ c.field_name ++ ")") ++
      ";\n    \x7d\n\n" ++
      "    @Override\n    public int hashCode() \x7b\n" ++
      "        return Objects.hash(" ++
      ", ".intercalate ((table.columns.filter fun c => c.primary_key).map fun c => c.field_name) ++
      ");\n    \x7d\n\n" := by
  unfold generateEqualsHashCode pkColumns
  simp only [isEmpty_filter_eq_false _ _ h, Bool.not_false, if_true]
  simp only [String.append_assoc]
  rfl

/-- The rendered equals/hashCode calls `Objects.equals` and `Objects.hash`. -/
theorem generateEqualsHashCode_calls (table : TableInfo)
    (h : ∃ c ∈ table.columns, c.primary_key = true) :
    containsSub "Objects.equals(".toList (generateEqualsHashCode table).toList = true ∧
      containsSub "Objects.hash(".toList (generateEqualsHashCode table).toList = true := by
  rw [generateEqualsHashCode_of_pk table h]
  constructor
  · have hne := isEmpty_filter_eq_false (fun c : ColumnInfo => c.primary_key) table.columns h
    cases hf : table.columns.filter (fun c => c.primary_key) with
    | nil => rw [hf] at hne; cases hne
    | cons c rest =>
      obtain ⟨tail, htail⟩ := intercalate_cons_exists " && "
        ("Objects.equals(" ++ c.field_name ++ ", that." ++ c.field_name ++ ")")
        (rest.map fun c => "Objects.equals(" ++ c.field_name ++ ", that." ++ c.field_name ++ ")")
      simp only [List.map_cons]
      rw [htail]
      iterate 5 apply containsSub_str_left
      apply containsSub_str_right
      iterate 5 apply containsSub_str_left
      decide
  · iterate 2 apply containsSub_str_left
    apply containsSub_str_right
    decide

/-- C22: in every table returned by `parseSQL` the mapped type of every column is
one of the fifteen types; the imports are `javax.persistence.*`,
`java.io.Serializable` and the `IMPORT_MAP` entries of the mapped column types;
`java.util.Objects` is never among them, although the equals/hashCode rendered for
a table with a primary-key column calls `Objects.equals` and `Objects.hash`. -/
theorem C22_objects_not_imported (sql_content : String) (t : TableInfo)
    (ht : t ∈ parseSQL sql_content) :
    (∀ c ∈ t.columns, c.java_type ∈
      ["String", "Byte", "Short", "Integer", "Long", "BigInteger", "BigDecimal", "Float",
       "Double", "LocalDate", "LocalTime", "LocalDateTime", "Boolean", "byte[]", "UUID"]) ∧
    (∀ z, z ∈ importSet t ↔
      (z = "java.io.Serializable" ∨ z = "javax.persistence.*") ∨
        ∃ c ∈ t.columns, IMPORT_MAP.lookup c.java_type = some z) ∧
    "java.util.Objects" ∉ importSet t ∧
    "import java.util.Objects;\n" ∉ importLines t ∧
    ((∃ c ∈ t.columns, c.primary_key = true) →
      containsSub "Objects.equals(".toList (generateEqualsHashCode t).toList = true ∧
        containsSub "Objects.hash(".toList (generateEqualsHashCode t).toList = true) := by
  have htypes := parseSQL_java_type sql_content t ht
  have hnot : "java.util.Objects" ∉ importSet t := by
    intro hmem
    rcases ((importSet_spec t).2 _).1 hmem with h | ⟨c, hc, hl⟩
    · revert h; decide
    · have hno : ∀ ty ∈ mappedTypes, IMPORT_MAP.lookup ty ≠ some "java.util.Objects" := by
        decide
      exact hno _ (htypes c hc) hl
  refine ⟨htypes, (importSet_spec t).2, hnot, ?_, generateEqualsHashCode_calls t⟩
  intro hmem
  unfold importLines at hmem
  rw [List.mem_map] at hmem
  obtain ⟨imp, himp, heq⟩ := hmem
  have h1 : "import " ++ imp ++ ";\n" = "import " ++ "java.util.Objects" ++ ";\n" := by
    rw [heq]; decide
  have h2 := append_left_cancel _ _ _
    ((String.append_assoc _ _ _).symm.trans (h1.trans (String.append_assoc _ _ _)))
  have h3 := append_right_cancel _ _ _ h2
  rw [h3] at himp
  exact hnot himp

/-- C22 (witness): the table of `tablePkSql` has the primary key `id`; its imports are
the two fixed ones and its equals/hashCode calls `Objects`. -/
theorem C22_objects_not_imported_witness :
    buildTable "t" tablePkBody ∈ parseSQL tablePkSql ∧
    importLines (buildTable "t" tablePkBody) =
      ["import java.io.Serializable;\n", "import javax.persistence.*;\n"] ∧
    "java.util.Objects" ∉ importSet (buildTable "t" tablePkBody) ∧
    (∃ c ∈ (buildTable "t" tablePkBody).columns, c.primary_key = true) ∧
    containsSub "Objects.equals(".toList
      (generateEqualsHashCode (buildTable "t" tablePkBody)).toList = true :=
  ⟨by decide, by decide,
    (C22_objects_not_imported tablePkSql (buildTable "t" tablePkBody) (by decide)).2.2.1,
    by decide,
    ((C22_objects_not_imported tablePkSql (buildTable "t" tablePkBody) (by decide)).2.2.2.2
      (by decide)).1⟩

/-- A loop with a test renders the pieces of the elements that pass the test. -/
theorem appendAll_filter_map {α : Type} (p : α → Bool) (f : α → String) (l : List α) :
    appendAll (l.map fun x => if p x then f x else "") = appendAll ((l.filter p).map f) := by
  induction l with
  | nil => rfl
  | cons a l ih =>
    by_cases ha : p a = true
    · simp [List.filter_cons, ha, appendAll, ih]
    · simp [List.filter_cons, ha, appendAll, ih]

/-- C23: the relationship field of a resolved foreign key has the class name of the
table its link designates as type, `@JoinColumn` with the source column, and
the field name `toCamelCase(referenced_table, false)`; its accessor pair is a
getter and a setter of that type, named after the capitalised field name; two
foreign keys with the same target are rendered with the same accessor pair and
the same field declaration, up to the join column; the relationship fields and
accessor pairs rendered for a table are those of its resolved foreign keys, one
each, at their places in the text of the class.  In `msgSql` the two foreign
keys to `users` are rendered as two fields `users` and two accessor pairs
`getUsers`, `setUsers`. -/
theorem C23_relationship_field_naming :
    (∀ (tables : List TableInfo) (fk : ForeignKeyInfo) (p : Nat) (t : TableInfo),
      fk.referenced_table_info = some p → tables[p]? = some t →
      generateRelationshipField tables fk =
        "    /**\n     * Relacionamento com " ++ fk.referenced_table ++ "\n     */\n" ++
        "    @ManyToOne(fetch = FetchType.LAZY)\n" ++
        "    @JoinColumn(name = \"" ++ fk.column_name ++ "\")\n" ++
        "    private " ++ t.class_name ++ " " ++ toCamelCase fk.referenced_table false ++
        ";\n\n") ∧
    (∀ (tables : List TableInfo) (fk1 fk2 : ForeignKeyInfo),
      fk1.referenced_table = fk2.referenced_table →
      fk1.referenced_table_info = fk2.referenced_table_info →
      generateRelationshipGetterSetter tables fk1 = generateRelationshipGetterSetter tables fk2 ∧
      generateRelationshipField tables fk1 =
        generateRelationshipField tables { fk2 with column_name := fk1.column_name }) ∧
    (∀ (tables : List TableInfo) (table : TableInfo),
      relationshipFields tables table =
        appendAll ((resolvedForeignKeys table).map (generateRelationshipField tables)) ∧
      relationshipAccessors tables table =
        appendAll ((resolvedForeignKeys table).map (generateRelationshipGetterSetter tables)) ∧
      ((resolvedForeignKeys table).map (generateRelationshipField tables)).length =
        (resolvedForeignKeys table).length) ∧
    (schemaOf msgSql).map (fun t => ((resolvedForeignKeys t).map fun fk =>
        (fk.column_name, fk.referenced_table_info, toCamelCase fk.referenced_table false))) =
      [[("sender_id", some 1, "users"), ("receiver_id", some 1, "users")], []] ∧
    (schemaOf msgSql).map (relationshipFields (schemaOf msgSql)) =
      ["    /**\n     * Relacionamento com users\n     */\n" ++
       "    @ManyToOne(fetch = FetchType.LAZY)\n    @JoinColumn(name = \"sender_id\")\n" ++
       "    private Users users;\n\n" ++
       "    /**\n     * Relacionamento com users\n     */\n" ++
       "    @ManyToOne(fetch = FetchType.LAZY)\n    @JoinColumn(name = \"receiver_id\")\n" ++
       "    private Users users;\n\n", ""] ∧
    (∀ (tables : List TableInfo) (fk : ForeignKeyInfo) (p : Nat) (t : TableInfo),
      fk.referenced_table_info = some p → tables[p]? = some t →
      generateRelationshipGetterSetter tables fk =
        "    public " ++ t.class_name ++ " get" ++
          capitalizeFirst (toCamelCase fk.referenced_table false) ++ "() \x7b\n" ++
        "        return " ++ toCamelCase fk.referenced_table false ++ ";\n" ++
        "    \x7d\n\n" ++
        "    public void set" ++ capitalizeFirst (toCamelCase fk.referenced_table false) ++
          "(" ++ t.class_name ++ " " ++ toCamelCase fk.referenced_table false ++ ") \x7b\n" ++
        "        this." ++ toCamelCase fk.referenced_table false ++ " = " ++
          toCamelCase fk.referenced_table false ++ ";\n" ++
        "    \x7d\n\n") ∧
    (schemaOf msgSql).map (relationshipAccessors (schemaOf msgSql)) =
      ["    public Users getUsers() \x7b\n        return users;\n    \x7d\n\n" ++
       "    public void setUsers(Users users) \x7b\n        this.users = users;\n    \x7d\n\n" ++
       "    public Users getUsers() \x7b\n        return users;\n    \x7d\n\n" ++
       "    public void setUsers(Users users) \x7b\n        this.users = users;\n    \x7d\n\n",
       ""] ∧
    (∀ (tables : List TableInfo) (table : TableInfo) (package_name : String),
      ∃ head : String, entityText tables table package_name =
        head ++ relationshipFields tables table ++ generateConstructors table ++
          appendAll (table.columns.map generateGetterSetter) ++
          relationshipAccessors tables table ++ generateEqualsHashCode table ++
          generateToString table ++ "\x7d\n") := by
  refine ⟨?_, ?_, ?_, by decide, by decide, ?_, by decide, ?_⟩
  · intro tables fk p t hinfo hget
    unfold generateRelationshipField referencedClassName
    simp only [hinfo, hget]
    simp only [String.append_assoc]
    rfl
  · intro tables fk1 fk2 hname hinfo
    constructor
    · unfold generateRelationshipGetterSetter referencedClassName
      rw [hname, hinfo]
    · unfold generateRelationshipField referencedClassName
      simp only [hname, hinfo]
  · intro tables table
    refine ⟨?_, ?_, by simp⟩
    · exact appendAll_filter_map _ _ _
    · exact appendAll_filter_map _ _ _
  · intro tables fk p t hinfo hget
    unfold generateRelationshipGetterSetter referencedClassName
    simp only [hinfo, hget]
  · intro tables table package_name
    unfold entityText
    exact ⟨_, rfl⟩

/-- C23 (witness): the foreign key `b_id` of `linkExample`, linked to the table `b`,
with its field and its accessor pair. -/
theorem C23_relationship_field_naming_witness :
    linkedKey.referenced_table_info = some 1 ∧
    (processRelationships linkExample)[1]? =
      some ((processRelationships linkExample).getD 1 {}) ∧
    generateRelationshipField (processRelationships linkExample) linkedKey =
      "    /**\n     * Relacionamento com " ++ linkedKey.referenced_table ++ "\n     */\n" ++
      "    @ManyToOne(fetch = FetchType.LAZY)\n" ++
      "    @JoinColumn(name = \"" ++ linkedKey.column_name ++ "\")\n" ++
      "    private " ++ ((processRelationships linkExample).getD 1 {}).class_name ++ " " ++
      toCamelCase linkedKey.referenced_table false ++ ";\n\n" ∧
    generateRelationshipField (processRelationships linkExample) linkedKey =
      "    /**\n     * Relacionamento com b\n     */\n" ++
      "    @ManyToOne(fetch = FetchType.LAZY)\n    @JoinColumn(name = \"b_id\")\n" ++
      "    private B b;\n\n" ∧
    generateRelationshipGetterSetter (processRelationships linkExample) linkedKey =
      "    public B getB() \x7b\n        return b;\n    \x7d\n\n" ++
      "    public void setB(B b) \x7b\n        this.b = b;\n    \x7d\n\n" :=
  ⟨by decide, by decide,
    C23_relationship_field_naming.1 (processRelationships linkExample) linkedKey 1
      ((processRelationships linkExample).getD 1 {}) (by decide) (by decide),
    by decide, by decide⟩

end SqlToJpa
